import Mathlib

/-!
Verification development for the horse-racing admin dashboard's external
data reconciliation engine (`backend/src/routes/sync.ts` and the auto-sync
scheduler in `backend/src/server.ts`).

The TypeScript source is shallowly embedded:
* JS numbers are modelled as exact rationals (`ℚ`); `NaN` outcomes are
  modelled with `Option`.  (IEEE-double rounding is out of scope: every
  value manipulated by the sync fits exactly.)
* JS strings are Lean `String`s; the handful of string/regex operations the
  source uses (`trim`, `toLowerCase`, `replace(/\s+/g, ...)`, `parseInt`,
  `parseFloat`, the two anchored regexes) are modelled operationally below.
  `toLowerCase` is modelled on ASCII letters plus the one accented letter
  appearing in the venue table.
* MongoDB is modelled as an in-memory record store: lists of `RaceRec` /
  `ResultRec`; `findOne` is first-match, `updateOne`/`findByIdAndUpdate`
  update the first matching record, `create` appends.
* Dates are modelled at calendar-day granularity (a `String` such as
  `"2026-01-01"`): the source always stores races at UTC midnight of the
  sync date and matches with a full-day window, so the window test
  `dateStart ≤ d ≤ dateEnd` is day equality.
* `fetch` results are modelled as fixed oracle inputs: the programme
  response and a per-race-id detail oracle (`none` = failed / non-OK fetch).
-/

/-! ## JS primitive string/number operations -/

/-- JS `\s` (the whitespace characters relevant to this feed). -/
def isJsWs (c : Char) : Bool :=
  c = ' ' || c = '\t' || c = '\n' || c = '\r'

/-- JS `String.prototype.toLowerCase`, on ASCII plus `È` (the only
non-ASCII uppercase letter reachable through the venue tables). -/
def jsToLowerChar (c : Char) : Char :=
  if 'A' ≤ c ∧ c ≤ 'Z' then Char.ofNat (c.toNat + 32)
  else if c = 'È' then 'è' else c

def jsToLower (s : String) : String :=
  ⟨s.data.map jsToLowerChar⟩

/-- JS `String.prototype.trim` (drop leading/trailing whitespace). -/
def jsTrim (s : String) : String :=
  ⟨((s.data.dropWhile isJsWs).reverse.dropWhile isJsWs).reverse⟩

/-- JS `str.replace(/\s+/g, ' ')`, one character at a time: a whitespace
character opens (or continues) a run; only the first of a run emits `' '`. -/
def collapseWsAux : Bool → List Char → List Char
  | _, [] => []
  | prevWs, c :: cs =>
    if isJsWs c then
      if prevWs then collapseWsAux true cs else ' ' :: collapseWsAux true cs
    else c :: collapseWsAux false cs

/-- JS `str.replace(/\s+/g, ' ')`: collapse every whitespace run to one space. -/
def collapseWsList (cs : List Char) : List Char := collapseWsAux false cs

def collapseWs (s : String) : String := ⟨collapseWsList s.data⟩

/-- JS `str.replace(/\s/g, '')`: remove all whitespace. -/
def stripWs (s : String) : String := ⟨s.data.filter (fun c => !(isJsWs c))⟩

/-- Numeric value of a digit list, most significant first. -/
def digitsToNat (ds : List Char) : ℕ :=
  ds.foldl (fun acc c => 10 * acc + (c.toNat - '0'.toNat)) 0

/-- Longest unsigned-digit prefix as a value; `none` models `NaN`. -/
def digitPrefixVal (cs : List Char) : Option ℕ :=
  let ds := cs.takeWhile Char.isDigit
  if ds = [] then none else some (digitsToNat ds)

/-- JS `parseInt(s, 10)`: skip leading whitespace, optional sign, longest
digit prefix; `none` models `NaN`. -/
def jsParseInt (s : String) : Option ℤ :=
  match s.data.dropWhile isJsWs with
  | [] => none
  | c :: t =>
    if c = '-' then (digitPrefixVal t).map (fun n => -(n : ℤ))
    else if c = '+' then (digitPrefixVal t).map (fun n => (n : ℤ))
    else (digitPrefixVal (c :: t)).map (fun n => (n : ℤ))

/-- `digits[.digits]` prefix of an unsigned float literal; `none` = `NaN`. -/
def floatPrefixVal (cs : List Char) : Option ℚ :=
  let intPart := cs.takeWhile Char.isDigit
  let rest := cs.drop intPart.length
  let fracPart : List Char :=
    match rest with
    | '.' :: t => t.takeWhile Char.isDigit
    | _ => []
  if intPart = [] ∧ fracPart = [] then none
  else
    some ((digitsToNat intPart : ℚ) +
      mkRat (digitsToNat fracPart) (10 ^ fracPart.length))

/-- JS `parseFloat(s)` restricted to the character shapes reachable in this
code base (digits, `.`, `,`; no exponents occur): skip leading whitespace,
optional sign, longest `digits[.digits]` prefix; `none` models `NaN`. -/
def jsParseFloat (s : String) : Option ℚ :=
  match s.data.dropWhile isJsWs with
  | [] => none
  | c :: t =>
    if c = '-' then (floatPrefixVal t).map (fun q => -q)
    else if c = '+' then floatPrefixVal t
    else floatPrefixVal (c :: t)

/-- JS `Math.round`: round half toward positive infinity. -/
def jsRound (q : ℚ) : ℤ := ⌊q + mkRat 1 2⌋

/-- JS `str.replace(',', '.')` (a *string* pattern: first occurrence only). -/
def replaceFirstComma : List Char → List Char
  | [] => []
  | c :: cs => if c = ',' then '.' :: cs else c :: replaceFirstComma cs

/-! ## `parsePrize` (sync.ts lines 31-41) -/

/-- Character class `[\d\s.,]` of the prize regex. -/
def isPrizeAmountChar (c : Char) : Bool :=
  c.isDigit || isJsWs c || c = '.' || c = ','

/-- Remainder test for `\s*(\S*)$`: the remainder must be a whitespace block
followed by a non-whitespace block; returns the `\S*` capture. -/
def prizeRest (r : List Char) : Option (List Char) :=
  let r' := r.dropWhile isJsWs
  if r'.all (fun c => !(isJsWs c)) then some r' else none

/-- Backtracking search for `^([\d\s.,]+)\s*(\S*)$`: the greedy group 1 takes
the longest `[\d\s.,]` prefix that lets the rest of the pattern match. -/
def prizeSplitAux (s : List Char) : ℕ → Option (List Char × List Char)
  | 0 => none
  | k + 1 =>
    if (s.take (k + 1)).all isPrizeAmountChar then
      match prizeRest (s.drop (k + 1)) with
      | some g2 => some (s.take (k + 1), g2)
      | none => prizeSplitAux s k
    else prizeSplitAux s k

def prizeSplit (s : List Char) : Option (List Char × List Char) :=
  prizeSplitAux s s.length

/-- `parsePrize` from sync.ts: parse a prize string such as `"1500000 DH"`
into the rounded amount and the currency token (default `"Dh"`). -/
def parsePrize (prize : Option String) : Option (ℤ × String) :=
  match prize with
  | none => none
  | some p =>
    if p = "" then none
    else
      let trimmed := jsTrim p
      match prizeSplit trimmed.data with
      | none => none
      | some (g1, g2) =>
        let amountStr : List Char :=
          replaceFirstComma (g1.filter (fun c => !(isJsWs c)))
        match jsParseFloat ⟨amountStr⟩ with
        | none => none
        | some amount =>
          if amount < 0 then none
          else
            let cur0 : String := if g2 = [] then "Dh" else ⟨g2⟩
            let cur1 := jsTrim cur0
            some (jsRound amount, if cur1 = "" then "Dh" else cur1)

/-! ## Venue allow-list, aliases, race numbers, finish order -/

/-- `MOROCCO_TRACKS` from sync.ts: the fixed venue allow-list (lower-case,
whitespace-collapsed spellings, including the alias spellings). -/
def MOROCCO_TRACKS : List String :=
  ["casablanca", "anfa", "casablanca anfa", "anfa casablanca",
   "rabat", "el jadida", "eljadida", "settat", "meknès", "meknes",
   "khemisset", "marrakech"]

/-- Normalisation applied to a feed track: `trim`, `toLowerCase`,
`replace(/\s+/g, ' ')`. -/
def normTrack (s : String) : String :=
  collapseWs (jsToLower (jsTrim s))

/-- `isMoroccoMeeting`'s track test (the meeting's `country` is ignored):
the normalised track, or the same with all whitespace removed, must be on
the allow-list. -/
def trackAllowed (track? : Option String) : Bool :=
  let track := normTrack (track?.getD "")
  if track = "" then false
  else MOROCCO_TRACKS.contains track || MOROCCO_TRACKS.contains (stripWs track)

/-- `CASABLANCA_ANFA_ALIASES` from sync.ts. -/
def CASABLANCA_ANFA_ALIASES : List String :=
  ["anfa", "casablanca", "casablanca anfa", "anfa casablanca"]

/-- `getCanonicalTrack` from sync.ts: collapse the Casablanca/Anfa alias
spellings to the single canonical name `"Casablanca"`. -/
def getCanonicalTrack (apiTrack : String) : String :=
  let t := normTrack apiTrack
  if t = "" then jsTrim apiTrack
  else if CASABLANCA_ANFA_ALIASES.contains t ||
      CASABLANCA_ANFA_ALIASES.contains (stripWs t) then "Casablanca"
  else jsTrim apiTrack

/-- A Casa `finish_order` array element: a bare number, an object (only its
`number` field — a number or a string — is read), or `null`. -/
inductive FinishItem where
  | num (n : ℚ)
  | obj (number : Option (ℚ ⊕ String))
  | nullItem
deriving DecidableEq, Repr

/-- `arrivalFromFinishOrder` from sync.ts: normalise the finish order to the
arrival list, keeping entries whose value is `≥ 1` and dropping the rest
(`null` items, absent/unparseable `number` fields, values `< 1`). -/
def arrivalFromFinishOrder : List FinishItem → List ℚ
  | [] => []
  | FinishItem.num n :: rest =>
    if 1 ≤ n then n :: arrivalFromFinishOrder rest
    else arrivalFromFinishOrder rest
  | FinishItem.obj field :: rest =>
    let n? : Option ℚ :=
      match field with
      | some (Sum.inl q) => some q
      | some (Sum.inr s) => (jsParseInt s).map (fun z => (z : ℚ))
      | none => none
    match n? with
    | some n =>
      if 1 ≤ n then n :: arrivalFromFinishOrder rest
      else arrivalFromFinishOrder rest
    | none => arrivalFromFinishOrder rest
  | FinishItem.nullItem :: rest => arrivalFromFinishOrder rest

/-- The `^C(\d+)$/i` match of `raceNumberFromCode`: returns the digit group. -/
def cCodeDigits (s : String) : Option (List Char) :=
  match s.data with
  | c :: rest =>
    if (c = 'C' ∨ c = 'c') ∧ rest ≠ [] ∧ rest.all Char.isDigit then some rest
    else none
  | [] => none

/-- `raceNumberFromCode` from sync.ts: parse `"C8"`-style codes; fall back to
`parseInt` of the string with every non-digit removed; `0` is the invalid
value. -/
def raceNumberFromCode (code : Option String) : ℕ :=
  match code with
  | none => 0
  | some s =>
    let trimmed := jsTrim s
    match cCodeDigits trimmed with
    | some ds => digitsToNat ds
    | none =>
      match jsParseInt ⟨trimmed.data.filter Char.isDigit⟩ with
      | some z => z.toNat
      | none => 0

/-- `slugTrack` from sync.ts. -/
def slugTrack (track : String) : String :=
  ⟨(collapseWsList (jsTrim (jsToLower track)).data).map
      (fun c => if isJsWs c then '-' else c) |>.filter
      (fun c => ('a' ≤ c ∧ c ≤ 'z') ∨ c.isDigit ∨ c = '-')⟩

/-- `casaRaceId` from sync.ts: the deterministic `_id` for created races. -/
def casaRaceId (dateStr : String) (raceNumber : ℕ) (track : String) : String :=
  dateStr ++ "-" ++ slugTrack track ++ "-" ++ toString raceNumber

/-! ## Casa race-detail endpoint (`fetchCasaRaceDetails`) -/

/-- A runner object from `GET /api/race/{id}` (loosely typed fields). -/
structure CasaRunner where
  number : Option (ℚ ⊕ String) := none
  horse_name : Option String := none
  jockey_name : Option String := none
  weight : Option (ℚ ⊕ String) := none
deriving DecidableEq, Repr

/-- Internal participant shape. -/
structure Participant where
  number : ℚ
  horse : String
  jockey : String
  weight : ℚ
deriving DecidableEq, Repr

/-- `mapRunnersToParticipants` from sync.ts: the per-runner coercions
(`parseInt(String(r.number ?? 0))`, weight default 58, `—` placeholders),
then keep only runners with number `≥ 1`. -/
def mapRunnersToParticipants (runners : Option (List (Option CasaRunner))) :
    List Participant :=
  match runners with
  | none => []
  | some rs =>
    ((rs.filterMap id).map (fun r =>
      let n : ℚ :=
        match r.number with
        | some (Sum.inl q) => q
        | some (Sum.inr s) =>
          match jsParseInt s with
          | some z => (z : ℚ)
          | none => 0          -- NaN, mapped to the invalid value 0
        | none => 0            -- parseInt(String(0)) = 0
      let w : ℚ :=
        match r.weight with
        | some (Sum.inl q) => q
        | some (Sum.inr s) =>
          match jsParseFloat s with
          | some q => if q = 0 then 58 else q   -- `|| 58` is also hit by 0
          | none => 58
        | none => 58
      { number := if n < 1 then 0 else n
        horse := (let h := jsTrim ((r.horse_name).getD "")
                  if h = "" then "—" else h)
        jockey := (let j := jsTrim ((r.jockey_name).getD "")
                   if j = "" then "—" else j)
        weight := w })).filter (fun p => 1 ≤ p.number)

/-- Raw response of `GET /api/race/{id}`. -/
structure CasaRaceDetailResponse where
  prize : Option String := none
  runners : Option (List (Option CasaRunner)) := none
  /-- present iff the JSON field is a finite number -/
  weather_temp : Option ℚ := none
deriving DecidableEq, Repr

/-- Parsed detail data as returned by `fetchCasaRaceDetails` on success. -/
structure CasaDetailParsed where
  purse : Option ℤ
  pursecurrency : Option String
  weather_temp : Option ℚ
  participants : List Participant
deriving DecidableEq, Repr

/-- `fetchCasaRaceDetails` from sync.ts; the argument is the fixed fetch
outcome for the race id (`none` = non-OK response or thrown error). -/
def fetchCasaRaceDetails (resp : Option CasaRaceDetailResponse) :
    Option CasaDetailParsed :=
  match resp with
  | none => none
  | some d =>
    some { purse := (parsePrize d.prize).map (fun pc => pc.1)
           pursecurrency := (parsePrize d.prize).map (fun pc => pc.2)
           weather_temp := d.weather_temp
           participants := mapRunnersToParticipants d.runners }

/-! ## Domain store (Mongo models `Race` and `Result`) -/

/-- A stored `Race` document (fields touched by the sync engine). -/
structure RaceRec where
  id : String
  date : String            -- calendar day (stored at UTC midnight)
  hippodrome : String
  race_number : ℕ
  time : String
  distance : ℚ
  title : String
  purse : ℚ
  pursecurrency : String
  weather_temp : Option ℚ
  participants : List Participant
deriving DecidableEq, Repr

/-- A stored `Result` document. Payout maps are string-keyed maps, modelled
as association lists. -/
structure ResultRec where
  race_id : String
  arrival : List ℚ
  rapports : List (String × ℚ)
  simple : List (String × ℚ)
  couple : List (String × ℚ)
  trio : List (String × ℚ)
deriving DecidableEq, Repr

structure Store where
  races : List RaceRec
  results : List ResultRec
deriving DecidableEq, Repr

/-- The matching key of a race: the fields read by the sync's `findOne`
queries and by the duplicate checks.  Every store operation the sync
performs leaves these fields of existing records unchanged. -/
structure RaceKey where
  id : String
  date : String
  hippodrome : String
  race_number : ℕ
deriving DecidableEq, Repr

def raceKey (r : RaceRec) : RaceKey :=
  { id := r.id, date := r.date, hippodrome := r.hippodrome,
    race_number := r.race_number }

def keysOf (rs : List RaceRec) : List RaceKey := rs.map raceKey

/-- Case-insensitive string equality: the semantics of the sync's
`new RegExp('^' + escaped + '$', 'i')` hippodrome matcher. -/
def lowerEq (a b : String) : Bool := jsToLower a = jsToLower b

/-- The `Race.findOne` criteria of both sync stages: date within the day
window, case-insensitive hippodrome match, exact race number. -/
def keyMatches (date track : String) (n : ℕ) (k : RaceKey) : Bool :=
  k.date = date && lowerEq k.hippodrome track && k.race_number = n

def raceMatches (date track : String) (n : ℕ) (r : RaceRec) : Bool :=
  keyMatches date track n (raceKey r)

/-- `Race.findOne({date window, hippodrome, race_number})`: first match. -/
def findRace (date track : String) (n : ℕ) (rs : List RaceRec) :
    Option RaceRec :=
  rs.find? (raceMatches date track n)

/-- `Race.findById`. -/
def findRaceById (i : String) (rs : List RaceRec) : Option RaceRec :=
  rs.find? (fun r => r.id = i)

/-- A `$set` document applied to a race by the enrichment step. -/
structure RaceUpdate where
  purse : Option ℚ
  pursecurrency : Option String
  weather_temp : Option ℚ
  participants : Option (List Participant)
deriving DecidableEq, Repr

def RaceUpdate.isEmpty (u : RaceUpdate) : Bool :=
  u.purse.isNone && u.pursecurrency.isNone &&
    u.weather_temp.isNone && u.participants.isNone

/-- Apply a `$set` update to one race document. -/
def applyUpd (u : RaceUpdate) (r : RaceRec) : RaceRec :=
  { r with
    purse := u.purse.getD r.purse
    pursecurrency := u.pursecurrency.getD r.pursecurrency
    weather_temp := match u.weather_temp with
      | some w => some w
      | none => r.weather_temp
    participants := u.participants.getD r.participants }

/-- `Race.findByIdAndUpdate(id, {$set: u})`: update the first (in Mongo the
unique) race with the given `_id`. -/
def raceSetById (i : String) (u : RaceUpdate) : List RaceRec → List RaceRec
  | [] => []
  | r :: rs =>
    if r.id = i then applyUpd u r :: rs else r :: raceSetById i u rs

/-- `Result.updateOne({race_id}, {$set: {arrival}})`: set the arrival of the
first result with the given `race_id`. -/
def resUpdFirst (i : String) (a : List ℚ) : List ResultRec → List ResultRec
  | [] => []
  | r :: rs =>
    if r.race_id = i then { r with arrival := a } :: rs
    else r :: resUpdFirst i a rs

/-- A fresh result: the new arrival and the four empty payout maps. -/
def mkResult (i : String) (a : List ℚ) : ResultRec :=
  { race_id := i, arrival := a, rapports := [], simple := [],
    couple := [], trio := [] }

/-- The result upsert performed by the reconciliation stage:
`findOne` then `updateOne` (arrival only) or `create`. -/
def resUpsert (i : String) (a : List ℚ) (rs : List ResultRec) :
    List ResultRec :=
  if rs.any (fun r => r.race_id = i) then resUpdFirst i a rs
  else rs ++ [mkResult i a]

/-! ## Feed shapes and the sync engine (`runCasaProgrammeSync`) -/

/-- A race inside a programme meeting.  `id` keys the detail endpoint. -/
structure CasaRace where
  id : ℚ
  code : Option String := none
  name : String := ""
  time_hm : Option String := none
  distance : ℚ := 0
  finished : Option Bool := none
  pursecurrency : Option String := none
  finish_order : Option (List FinishItem) := none
deriving DecidableEq, Repr

structure CasaMeeting where
  track : Option String := none
  country : Option String := none
  races : Option (List CasaRace) := none
deriving DecidableEq, Repr

structure CasaProgrammeResponse where
  date : Option String := none
  meetings : Option (List CasaMeeting) := none
deriving DecidableEq, Repr

/-- `isMoroccoMeeting` from sync.ts: allow-list only; the meeting's
`country` marker is never read. -/
def isMoroccoMeeting (m : CasaMeeting) : Bool :=
  trackAllowed m.track

/-- The per-race-id detail-fetch oracle: the fixed outcome of
`GET /api/race/{id}` for each external race id. -/
def DetailOracle : Type := ℚ → Option CasaRaceDetailResponse

structure SyncOptions where
  date : String
  venue : String := "SOREC"
  addRaces : Bool := false
deriving DecidableEq, Repr

/-- The mutable state of one sync pass: the store plus the report
accumulators. -/
structure SyncState where
  races : List RaceRec
  results : List ResultRec
  racesAdded : List String
  created : List String
  updated : List String
  skipped : List String
  notFound : List String
deriving DecidableEq, Repr

/-- The enrichment `$set` document built from a detail response
(`update.purse = ...` etc. under the source's truthiness conditions). -/
def enrichUpdate (d : CasaDetailParsed) : RaceUpdate :=
  { purse := d.purse.map (fun z => (z : ℚ))
    pursecurrency := match d.pursecurrency with
      | some c => if c = "" then none else some c
      | none => none
    weather_temp := d.weather_temp
    participants := if d.participants.isEmpty then none else some d.participants }

/-- The enrichment block shared by both stages:
`if (details && (purse != null || weather != null || participants.length))`
build the `$set` document and apply it when non-empty. -/
def applyEnrichment (d? : Option CasaDetailParsed) (rid : String)
    (races : List RaceRec) : List RaceRec :=
  match d? with
  | none => races
  | some d =>
    if d.purse.isSome || d.weather_temp.isSome || !d.participants.isEmpty then
      let u := enrichUpdate d
      if u.isEmpty then races else raceSetById rid u races
    else races

/-- One race of the race-creation stage (`addRaces`): skip invalid numbers,
skip races already present (matcher or deterministic `_id`), otherwise
create the race and enrich it from the detail endpoint. -/
def stage1Race (date : String) (oracle : DetailOracle) (track : String)
    (race : CasaRace) (st : SyncState) : SyncState :=
  let n := raceNumberFromCode race.code
  if n = 0 then st
  else
    match findRace date track n st.races with
    | some _ => st
    | none =>
      let rid := casaRaceId date n track
      match findRaceById rid st.races with
      | some _ => st
      | none =>
        let newRace : RaceRec :=
          { id := rid
            date := date
            hippodrome := track
            race_number := n
            time := (match race.time_hm with
              | none => "00:00"
              | some s => if jsTrim s = "" then "00:00" else jsTrim s)
            distance := race.distance
            title := if jsTrim race.name = "" then "Race " ++ toString n
                     else jsTrim race.name
            purse := 0
            pursecurrency := (match race.pursecurrency with
              | none => "Dh"
              | some s => if jsTrim s = "" then "Dh" else jsTrim s)
            weather_temp := none
            participants := [] }
        let races1 := st.races ++ [newRace]
        let races2 :=
          applyEnrichment (fetchCasaRaceDetails (oracle race.id)) rid races1
        { st with races := races2, racesAdded := st.racesAdded ++ [rid] }

/-- The source prints `race.code` with a template literal; `undefined`
stringifies to `"undefined"`. -/
def codeToStr (code : Option String) : String :=
  match code with
  | some s => s
  | none => "undefined"

/-- One race of the result-reconciliation stage: only finished races with a
non-empty `finish_order`; skipped / not-found accounting; enrichment of the
matched race; then create or update (arrival only) the `Result`. -/
def stage2Race (date : String) (oracle : DetailOracle) (track : String)
    (race : CasaRace) (st : SyncState) : SyncState :=
  let finished := race.finished = some true
  let finishOrder := race.finish_order.getD []
  if ¬ finished ∨ finishOrder = [] then st
  else
    let n := raceNumberFromCode race.code
    if n = 0 then
      { st with skipped := st.skipped ++ [track ++ " " ++ codeToStr race.code] }
    else
      let arrival := arrivalFromFinishOrder finishOrder
      if arrival = [] then
        { st with skipped := st.skipped ++
            [track ++ " " ++ codeToStr race.code ++ " (empty finish_order)"] }
      else
        match findRace date track n st.races with
        | none =>
          { st with notFound := st.notFound ++
              [track ++ " C" ++ toString n ++ " (" ++ race.name ++ ")"] }
        | some ourRace =>
          let races' :=
            applyEnrichment (fetchCasaRaceDetails (oracle race.id))
              ourRace.id st.races
          if st.results.any (fun r => r.race_id = ourRace.id) then
            { st with races := races'
                      results := resUpdFirst ourRace.id arrival st.results
                      updated := st.updated ++ [ourRace.id] }
          else
            { st with races := races'
                      results := st.results ++ [mkResult ourRace.id arrival]
                      created := st.created ++ [ourRace.id] }

/-- The per-meeting loop shared by both stages: skip meetings with a blank
track, canonicalise the track, then fold the stage body over the races. -/
def stageMeeting (body : String → CasaRace → SyncState → SyncState)
    (m : CasaMeeting) (st : SyncState) : SyncState :=
  let apiTrack := jsTrim (m.track.getD "")
  if apiTrack = "" then st
  else
    (m.races.getD []).foldl
      (fun s r => body (getCanonicalTrack apiTrack) r s) st

def runStage1 (date : String) (oracle : DetailOracle)
    (meetings : List CasaMeeting) (st : SyncState) : SyncState :=
  meetings.foldl (fun s m => stageMeeting (stage1Race date oracle) m s) st

def runStage2 (date : String) (oracle : DetailOracle)
    (meetings : List CasaMeeting) (st : SyncState) : SyncState :=
  meetings.foldl (fun s m => stageMeeting (stage2Race date oracle) m s) st

/-- The report returned by a sync pass. -/
structure CasaSyncResult where
  racesAdded : List String
  created : List String
  updated : List String
  skipped : List String
  notFound : List String
  meetingsFromApi : ℕ
  meetingsMorocco : ℕ
  message : String
deriving DecidableEq, Repr

def syncMessage (st : SyncState) (meetingsFromApi meetingsMorocco : ℕ) :
    String :=
  let parts : List String :=
    (if st.racesAdded.length ≠ 0 then
       [toString st.racesAdded.length ++ " race(s) added"] else []) ++
    [toString st.created.length ++ " result(s) created",
     toString st.updated.length ++ " result(s) updated"] ++
    (if st.notFound.length ≠ 0 then
       [toString st.notFound.length ++ " not found in DB"] else []) ++
    ["Casa: " ++ toString meetingsFromApi ++ " meeting(s), " ++
       toString meetingsMorocco ++ " Morocco"]
  String.intercalate "; " parts ++ "."

/-- The state a sync pass starts from: the store plus empty report lists. -/
def initState (store : Store) : SyncState :=
  { races := store.races, results := store.results, racesAdded := [],
    created := [], updated := [], skipped := [], notFound := [] }

/-- `runCasaProgrammeSync` after a successful programme fetch: filter the
meetings through the allow-list, optionally create missing races, then
reconcile results; returns the run report and the updated store. -/
def runCasaProgrammeSyncPure (resp : CasaProgrammeResponse)
    (oracle : DetailOracle) (opts : SyncOptions) (store : Store) :
    CasaSyncResult × Store :=
  let allMeetings := resp.meetings.getD []
  let meetings := allMeetings.filter isMoroccoMeeting
  let st1 := if opts.addRaces then
               runStage1 opts.date oracle meetings (initState store)
             else initState store
  let st2 := runStage2 opts.date oracle meetings st1
  ({ racesAdded := st2.racesAdded, created := st2.created,
     updated := st2.updated, skipped := st2.skipped,
     notFound := st2.notFound, meetingsFromApi := allMeetings.length,
     meetingsMorocco := meetings.length,
     message := syncMessage st2 allMeetings.length meetings.length },
   { races := st2.races, results := st2.results })

/-- Full `runCasaProgrammeSync`: a failed or non-OK programme fetch
(`none`) throws before anything is written. -/
def runCasaProgrammeSync (fetched : Option CasaProgrammeResponse)
    (oracle : DetailOracle) (opts : SyncOptions) (store : Store) :
    Except String (CasaSyncResult × Store) :=
  match fetched with
  | none => Except.error "Casa API error"
  | some resp => Except.ok (runCasaProgrammeSyncPure resp oracle opts store)

/-! ## Auto-sync scheduler (`server.ts`, `startAutoSync`) -/

/-- One scheduled tick: `runCasaProgrammeSync({date: today, venue: 'SOREC',
addRaces: false})` with the `.then`-side logging; the attached `.catch`
absorbs any failure into a log line, so a tick never throws. -/
def autoSyncTick (fetched : Option CasaProgrammeResponse)
    (oracle : DetailOracle) (today : String) (store : Store) :
    Store × String :=
  match runCasaProgrammeSync fetched oracle
      { date := today, venue := "SOREC", addRaces := false } store with
  | Except.ok (r, s') =>
    (s', if r.created.length + r.updated.length ≠ 0 then
           "[Auto-sync] " ++ r.message
         else "")
  | Except.error e => (store, "[Auto-sync] " ++ e)

/-- The interval schedule: tick `k` runs the sync with that tick's fetched
programme (`feedAt k`) and date (`dayAt k`), threading the store. -/
def autoSyncSchedule (feedAt : ℕ → Option CasaProgrammeResponse)
    (oracle : DetailOracle) (dayAt : ℕ → String) :
    ℕ → Store → Store × List String
  | 0, s => (s, [])
  | n + 1, s =>
    let p := autoSyncSchedule feedAt oracle dayAt n s
    let t := autoSyncTick (feedAt n) oracle (dayAt n) p.1
    (t.1, p.2 ++ [t.2])

/-- `resUpdFirst` writes only the arrival field: `race_id` and the four
payout maps of every stored result are untouched. -/
theorem resUpdFirst_proj (i : String) (a : List ℚ) (rs : List ResultRec) :
    (resUpdFirst i a rs).map
        (fun x => (x.race_id, x.rapports, x.simple, x.couple, x.trio)) =
      rs.map (fun x => (x.race_id, x.rapports, x.simple, x.couple, x.trio)) := by
  induction rs with
  | nil => rfl
  | cons r rs ih =>
    by_cases h : r.race_id = i
    · simp [resUpdFirst, h]
    · simp [resUpdFirst, h, ih]

/-! ## Flattened view of the two per-meeting loops -/

/-- The (canonical track, race) pairs a stage visits for one meeting. -/
def meetingPairs (m : CasaMeeting) : List (String × CasaRace) :=
  let apiTrack := jsTrim (m.track.getD "")
  if apiTrack = "" then []
  else (m.races.getD []).map (fun r => (getCanonicalTrack apiTrack, r))

def progPairs : List CasaMeeting → List (String × CasaRace)
  | [] => []
  | m :: ms => meetingPairs m ++ progPairs ms

/-- A stage as a fold over the flattened pair list. -/
def foldStage (body : String → CasaRace → SyncState → SyncState)
    (ps : List (String × CasaRace)) (st : SyncState) : SyncState :=
  ps.foldl (fun s p => body p.1 p.2 s) st

theorem foldStage_append (body ps qs st) :
    foldStage body (ps ++ qs) st = foldStage body qs (foldStage body ps st) :=
  List.foldl_append ..

theorem stageMeeting_eq_foldStage (body m st) :
    stageMeeting body m st = foldStage body (meetingPairs m) st := by
  unfold stageMeeting meetingPairs
  by_cases h : jsTrim (m.track.getD "") = ""
  · simp [h, foldStage]
  · simp [h, foldStage, List.foldl_map]

theorem runStage1_eq_foldStage (date oracle ms st) :
    runStage1 date oracle ms st =
      foldStage (stage1Race date oracle) (progPairs ms) st := by
  induction ms generalizing st with
  | nil => rfl
  | cons m ms ih =>
    simp only [runStage1, List.foldl_cons, progPairs, foldStage_append]
    rw [stageMeeting_eq_foldStage]
    exact ih _

theorem runStage2_eq_foldStage (date oracle ms st) :
    runStage2 date oracle ms st =
      foldStage (stage2Race date oracle) (progPairs ms) st := by
  induction ms generalizing st with
  | nil => rfl
  | cons m ms ih =>
    simp only [runStage2, List.foldl_cons, progPairs, foldStage_append]
    rw [stageMeeting_eq_foldStage]
    exact ih _

/-! ## Store operations as an op sequence

The result-reconciliation stage only performs two kinds of store writes:
a `$set` enrichment on a race selected by `_id`, and an arrival upsert on a
result selected by `race_id`.  Which ops fire, and with which constants,
depends on the store only through the (immutable) race keys. -/

inductive SyncOp where
  | enrich (rid : String) (u : RaceUpdate)
  | upsertRes (rid : String) (arrival : List ℚ)
deriving DecidableEq, Repr

def applyOp (p : List RaceRec × List ResultRec) (op : SyncOp) :
    List RaceRec × List ResultRec :=
  match op with
  | SyncOp.enrich i u => (raceSetById i u p.1, p.2)
  | SyncOp.upsertRes i a => (p.1, resUpsert i a p.2)

def applyOps (L : List SyncOp) (p : List RaceRec × List ResultRec) :
    List RaceRec × List ResultRec :=
  L.foldl applyOp p

theorem applyOps_append (L M p) :
    applyOps (L ++ M) p = applyOps M (applyOps L p) :=
  List.foldl_append ..

/-- The enrichment block as an op list. -/
def enrichOpsOf (d? : Option CasaDetailParsed) (rid : String) : List SyncOp :=
  match d? with
  | none => []
  | some d =>
    if d.purse.isSome || d.weather_temp.isSome || !d.participants.isEmpty then
      let u := enrichUpdate d
      if u.isEmpty then [] else [SyncOp.enrich rid u]
    else []

theorem applyEnrichment_eq_ops (d? rid races res) :
    applyEnrichment d? rid races =
      (applyOps (enrichOpsOf d? rid) (races, res)).1 := by
  cases d? with
  | none => rfl
  | some d =>
    by_cases h1 : (d.purse.isSome || d.weather_temp.isSome
        || !d.participants.isEmpty) = true
    · by_cases h2 : (enrichUpdate d).isEmpty = true
      · simp [applyEnrichment, enrichOpsOf, h1, h2, applyOps]
      · simp [applyEnrichment, enrichOpsOf, h1, h2, applyOps, applyOp]
    · simp [applyEnrichment, enrichOpsOf, h1, applyOps]

theorem enrichOps_results (d? rid races res) :
    (applyOps (enrichOpsOf d? rid) (races, res)).2 = res := by
  cases d? with
  | none => rfl
  | some d =>
    by_cases h1 : (d.purse.isSome || d.weather_temp.isSome
        || !d.participants.isEmpty) = true
    · by_cases h2 : (enrichUpdate d).isEmpty = true
      · simp [enrichOpsOf, h1, h2, applyOps]
      · simp [enrichOpsOf, h1, h2, applyOps, applyOp]
    · simp [enrichOpsOf, h1, applyOps]

/-- The ops one stage-2 iteration performs, computed from the race keys. -/
def stage2RaceOps (date : String) (oracle : DetailOracle) (track : String)
    (race : CasaRace) (ks : List RaceKey) : List SyncOp :=
  if ¬ (race.finished = some true) ∨ race.finish_order.getD [] = [] then []
  else
    let n := raceNumberFromCode race.code
    if n = 0 then []
    else
      let arrival := arrivalFromFinishOrder (race.finish_order.getD [])
      if arrival = [] then []
      else
        match ks.find? (keyMatches date track n) with
        | none => []
        | some k =>
          enrichOpsOf (fetchCasaRaceDetails (oracle race.id)) k.id ++
            [SyncOp.upsertRes k.id arrival]

/-! ## Race keys are invariant under the sync's store writes -/

theorem raceKey_applyUpd (u r) : raceKey (applyUpd u r) = raceKey r := rfl

theorem keysOf_raceSetById (i u rs) :
    keysOf (raceSetById i u rs) = keysOf rs := by
  induction rs with
  | nil => rfl
  | cons r rs ih =>
    by_cases h : r.id = i
    · simp [raceSetById, h, keysOf, raceKey_applyUpd]
    · simp only [raceSetById, if_neg h]
      simp [keysOf] at ih ⊢
      exact ih

theorem keysOf_applyEnrichment (d? rid rs) :
    keysOf (applyEnrichment d? rid rs) = keysOf rs := by
  cases d? with
  | none => rfl
  | some d =>
    simp only [applyEnrichment]
    by_cases h1 : (d.purse.isSome || d.weather_temp.isSome
        || !d.participants.isEmpty) = true
    · by_cases h2 : (enrichUpdate d).isEmpty = true
      · simp [h1, h2]
      · simp [h1, h2, keysOf_raceSetById]
    · simp [h1]

theorem keysOf_applyOps (L : List SyncOp) (p : List RaceRec × List ResultRec) :
    keysOf (applyOps L p).1 = keysOf p.1 := by
  induction L generalizing p with
  | nil => rfl
  | cons op L ih =>
    cases op with
    | enrich i u =>
      simpa [applyOps, applyOp, List.foldl_cons, keysOf_raceSetById] using
        (keysOf_raceSetById i u p.1) ▸ ih (raceSetById i u p.1, p.2)
    | upsertRes i a =>
      simpa [applyOps, applyOp, List.foldl_cons] using ih (p.1, resUpsert i a p.2)

/-- The matcher's outcome is a function of the race keys. -/
theorem findRace_keys (date track : String) (n : ℕ) (rs : List RaceRec) :
    (keysOf rs).find? (keyMatches date track n) =
      (findRace date track n rs).map raceKey := by
  unfold keysOf findRace
  rw [List.find?_map]
  rfl

theorem enrichOps_pair (d? rid races res) :
    applyOps (enrichOpsOf d? rid) (races, res) =
      (applyEnrichment d? rid races, res) := by
  cases d? with
  | none => rfl
  | some d =>
    simp only [enrichOpsOf, applyEnrichment]
    by_cases h1 : (d.purse.isSome || d.weather_temp.isSome
        || !d.participants.isEmpty) = true
    · by_cases h2 : (enrichUpdate d).isEmpty = true
      · simp [h1, h2, applyOps]
      · simp [h1, h2, applyOps, applyOp]
    · simp [h1, applyOps]

/-- Stage-2 factorisation: one iteration's effect on the store equals the
application of its op list, and that op list only reads the race keys. -/
theorem stage2Race_factor (date : String) (oracle : DetailOracle)
    (track : String) (race : CasaRace) (st : SyncState) :
    ((stage2Race date oracle track race st).races,
      (stage2Race date oracle track race st).results) =
    applyOps (stage2RaceOps date oracle track race (keysOf st.races))
      (st.races, st.results) := by
  unfold stage2Race stage2RaceOps
  by_cases hg : ¬ (race.finished = some true) ∨ race.finish_order.getD [] = []
  · simp [hg, applyOps]
  · simp only [if_neg hg]
    by_cases hn : raceNumberFromCode race.code = 0
    · simp [hn, applyOps]
    · simp only [if_neg hn]
      by_cases ha : arrivalFromFinishOrder (race.finish_order.getD []) = []
      · simp [ha, applyOps]
      · simp only [if_neg ha]
        cases hfr : findRace date track (raceNumberFromCode race.code)
            st.races with
        | none =>
          have hk : (keysOf st.races).find?
              (keyMatches date track (raceNumberFromCode race.code)) = none := by
            rw [findRace_keys, hfr]; rfl
          simp [hfr, hk, applyOps]
        | some our =>
          have hk : (keysOf st.races).find?
              (keyMatches date track (raceNumberFromCode race.code)) =
              some (raceKey our) := by
            rw [findRace_keys, hfr]; rfl
          simp only [hfr, hk]
          rw [applyOps_append, enrichOps_pair]
          by_cases hex : st.results.any (fun r => r.race_id = our.id) = true
          · simp [hex, applyOps, applyOp, resUpsert, raceKey]
          · simp [hex, applyOps, applyOp, resUpsert, raceKey]

/-- The op list of a whole stage-2 pass over the flattened pairs. -/
def stage2PassOps (date : String) (oracle : DetailOracle)
    (ps : List (String × CasaRace)) (ks : List RaceKey) : List SyncOp :=
  match ps with
  | [] => []
  | p :: rest =>
    stage2RaceOps date oracle p.1 p.2 ks ++ stage2PassOps date oracle rest ks

/-- Stage-2 pass factorisation: the whole pass is the application of an op
list computed from the initial race keys. -/
theorem foldStage2_factor (date : String) (oracle : DetailOracle)
    (ps : List (String × CasaRace)) (st : SyncState) :
    ((foldStage (stage2Race date oracle) ps st).races,
      (foldStage (stage2Race date oracle) ps st).results) =
    applyOps (stage2PassOps date oracle ps (keysOf st.races))
      (st.races, st.results) := by
  induction ps generalizing st with
  | nil => rfl
  | cons p rest ih =>
    have hstep := stage2Race_factor date oracle p.1 p.2 st
    have hkeys : keysOf (stage2Race date oracle p.1 p.2 st).races =
        keysOf st.races := by
      have := congrArg (fun q => keysOf q.1) hstep
      simpa [keysOf_applyOps] using this
    calc ((foldStage (stage2Race date oracle) (p :: rest) st).races,
          (foldStage (stage2Race date oracle) (p :: rest) st).results)
        = applyOps (stage2PassOps date oracle rest
            (keysOf (stage2Race date oracle p.1 p.2 st).races))
            ((stage2Race date oracle p.1 p.2 st).races,
             (stage2Race date oracle p.1 p.2 st).results) := by
          simpa [foldStage, List.foldl_cons] using
            ih (stage2Race date oracle p.1 p.2 st)
      _ = applyOps (stage2PassOps date oracle rest (keysOf st.races))
            (applyOps (stage2RaceOps date oracle p.1 p.2 (keysOf st.races))
              (st.races, st.results)) := by rw [hkeys, hstep]
      _ = applyOps (stage2PassOps date oracle (p :: rest) (keysOf st.races))
            (st.races, st.results) := by
          rw [stage2PassOps, applyOps_append]

theorem keysOf_foldStage2 (date : String) (oracle : DetailOracle)
    (ps : List (String × CasaRace)) (st : SyncState) :
    keysOf (foldStage (stage2Race date oracle) ps st).races =
      keysOf st.races := by
  have := congrArg (fun q => keysOf q.1) (foldStage2_factor date oracle ps st)
  simpa [keysOf_applyOps] using this

/-! ## Replaying an op sequence is idempotent

Every stage-2 store write assigns constants to fields of records selected
by immutable keys, so replaying the same op sequence on its own output
changes nothing.  The proof decomposes `applyOps` per component and per
record. -/

def raceOpsOf (L : List SyncOp) : List (String × RaceUpdate) :=
  L.filterMap (fun op => match op with
    | SyncOp.enrich i u => some (i, u)
    | SyncOp.upsertRes _ _ => none)

def resOpsOf (L : List SyncOp) : List (String × List ℚ) :=
  L.filterMap (fun op => match op with
    | SyncOp.enrich _ _ => none
    | SyncOp.upsertRes i a => some (i, a))

def applyRaceOps (RL : List (String × RaceUpdate)) (rs : List RaceRec) :
    List RaceRec :=
  RL.foldl (fun rs p => raceSetById p.1 p.2 rs) rs

def applyResOps (ML : List (String × List ℚ)) (res : List ResultRec) :
    List ResultRec :=
  ML.foldl (fun res p => resUpsert p.1 p.2 res) res

theorem applyOps_split (L : List SyncOp) (p : List RaceRec × List ResultRec) :
    applyOps L p =
      (applyRaceOps (raceOpsOf L) p.1, applyResOps (resOpsOf L) p.2) := by
  induction L generalizing p with
  | nil => rfl
  | cons op L ih =>
    cases op with
    | enrich i u =>
      simpa [applyOps, applyOp, raceOpsOf, resOpsOf, applyRaceOps, applyResOps,
        List.foldl_cons] using ih (raceSetById i u p.1, p.2)
    | upsertRes i a =>
      simpa [applyOps, applyOp, raceOpsOf, resOpsOf, applyRaceOps, applyResOps,
        List.foldl_cons] using ih (p.1, resUpsert i a p.2)

/-! ### Race side -/

/-- All ops of a sequence applied to one race record. -/
def chainRace (i : String) (L : List (String × RaceUpdate)) (x : RaceRec) :
    RaceRec :=
  L.foldl (fun x p => if p.1 = i then applyUpd p.2 x else x) x

/-- One field's evolution under a sequence of partial `$set`s. -/
def chainField {α : Type} (sel : RaceUpdate → Option α) (i : String)
    (L : List (String × RaceUpdate)) (v : α) : α :=
  L.foldl (fun v p => if p.1 = i then (sel p.2).getD v else v) v

theorem chainField_idem {α : Type} (sel : RaceUpdate → Option α) (i : String)
    (L : List (String × RaceUpdate)) (v : α) :
    chainField sel i L (chainField sel i L v) = chainField sel i L v := by
  induction L generalizing v with
  | nil => rfl
  | cons p L ih =>
    by_cases h : p.1 = i
    · cases hs : sel p.2 with
      | none => simpa [chainField, List.foldl_cons, h, hs] using ih v
      | some w => simp [chainField, List.foldl_cons, h, hs]
    · simpa [chainField, List.foldl_cons, h] using ih v

theorem option_set_getD (w? : Option ℚ) (old : Option ℚ) :
    (match w? with | some w => some w | none => old) =
      (w?.map some).getD old := by
  cases w? <;> rfl

theorem chainRace_proj (i : String) (L : List (String × RaceUpdate))
    (x : RaceRec) :
    chainRace i L x =
      { x with
        purse := chainField (fun u => u.purse) i L x.purse
        pursecurrency := chainField (fun u => u.pursecurrency) i L
          x.pursecurrency
        weather_temp := chainField (fun u => u.weather_temp.map some) i L
          x.weather_temp
        participants := chainField (fun u => u.participants) i L
          x.participants } := by
  induction L generalizing x with
  | nil => rfl
  | cons p L ih =>
    by_cases h : p.1 = i
    · have := ih (applyUpd p.2 x)
      simp only [chainRace, chainField, List.foldl_cons, h, if_pos] at this ⊢
      rw [this]
      simp [applyUpd, option_set_getD]
    · have := ih x
      simp only [chainRace, chainField, List.foldl_cons, h, if_neg,
        not_false_iff] at this ⊢
      rw [this]

theorem chainRace_id (i : String) (L : List (String × RaceUpdate))
    (x : RaceRec) : (chainRace i L x).id = x.id := by
  rw [chainRace_proj]

theorem chainRace_idem (i : String) (L : List (String × RaceUpdate))
    (x : RaceRec) : chainRace i L (chainRace i L x) = chainRace i L x := by
  rw [chainRace_proj i L x, chainRace_proj]
  simp [chainField_idem]

theorem applyRaceOps_nil (RL : List (String × RaceUpdate)) :
    applyRaceOps RL [] = [] := by
  induction RL with
  | nil => rfl
  | cons p RL ih => simpa [applyRaceOps, raceSetById, List.foldl_cons] using ih

theorem applyRaceOps_cons (RL : List (String × RaceUpdate)) (r : RaceRec)
    (rs : List RaceRec) :
    applyRaceOps RL (r :: rs) =
      chainRace r.id RL r ::
        applyRaceOps (RL.filter (fun p => !decide (p.1 = r.id))) rs := by
  induction RL generalizing r rs with
  | nil => rfl
  | cons p RL ih =>
    simp only [applyRaceOps, List.foldl_cons, chainRace, List.filter_cons]
    by_cases h : p.1 = r.id
    · have hr : r.id = p.1 := h.symm
      rw [show raceSetById p.1 p.2 (r :: rs) = applyUpd p.2 r :: rs by
        simp [raceSetById, hr]]
      have hrec := ih (applyUpd p.2 r) rs
      simp only [applyRaceOps, chainRace] at hrec
      rw [hrec]
      have hid : (applyUpd p.2 r).id = r.id := rfl
      simp [hid, h]
    · have hr : ¬ r.id = p.1 := fun e => h e.symm
      rw [show raceSetById p.1 p.2 (r :: rs) = r :: raceSetById p.1 p.2 rs by
        simp [raceSetById, hr]]
      have hrec := ih r (raceSetById p.1 p.2 rs)
      simp only [applyRaceOps, chainRace] at hrec
      rw [hrec]
      simp [h]

theorem applyRaceOps_replay (rs : List RaceRec) :
    ∀ RL, applyRaceOps RL (applyRaceOps RL rs) = applyRaceOps RL rs := by
  induction rs with
  | nil => intro RL; simp [applyRaceOps_nil]
  | cons r rs ih =>
    intro RL
    rw [applyRaceOps_cons, applyRaceOps_cons]
    simp only [chainRace_id, chainRace_idem]
    rw [ih]

/-! ### Result side -/

/-- All ops of a sequence applied to one result record. -/
def chainArr (i : String) (M : List (String × List ℚ)) (x : ResultRec) :
    ResultRec :=
  M.foldl (fun x p => if p.1 = i then { x with arrival := p.2 } else x) x

/-- The last arrival written to key `i` by the sequence, if any. -/
def lastArr (i : String) : List (String × List ℚ) → Option (List ℚ)
  | [] => none
  | p :: M =>
    match lastArr i M with
    | some a => some a
    | none => if p.1 = i then some p.2 else none

theorem chainArr_cf (i : String) (M : List (String × List ℚ)) (x : ResultRec) :
    chainArr i M x =
      match lastArr i M with
      | some a => { x with arrival := a }
      | none => x := by
  induction M generalizing x with
  | nil => rfl
  | cons p M ih =>
    by_cases h : p.1 = i
    · have hrec := ih { x with arrival := p.2 }
      simp only [chainArr, List.foldl_cons, h, if_pos] at hrec ⊢
      rw [hrec]
      cases hl : lastArr i M with
      | some a => simp [lastArr, hl]
      | none => simp [lastArr, hl, h]
    · have hrec := ih x
      simp only [chainArr, List.foldl_cons, h, if_neg, not_false_iff] at hrec ⊢
      rw [hrec]
      cases hl : lastArr i M with
      | some a => simp [lastArr, hl]
      | none => simp [lastArr, hl, h]

theorem chainArr_id (i : String) (M : List (String × List ℚ)) (x : ResultRec) :
    (chainArr i M x).race_id = x.race_id := by
  rw [chainArr_cf]; cases lastArr i M <;> rfl

theorem chainArr_idem (i : String) (M : List (String × List ℚ))
    (x : ResultRec) : chainArr i M (chainArr i M x) = chainArr i M x := by
  rw [chainArr_cf i M x, chainArr_cf]
  cases hl : lastArr i M <;> simp

theorem resUpsert_cons (i : String) (a : List ℚ) (r : ResultRec)
    (rs : List ResultRec) :
    resUpsert i a (r :: rs) =
      if r.race_id = i then { r with arrival := a } :: rs
      else r :: resUpsert i a rs := by
  by_cases h : r.race_id = i
  · simp [resUpsert, resUpdFirst, h, List.any_cons]
  · by_cases hc : rs.any (fun x => x.race_id = i) = true
    · simp [resUpsert, resUpdFirst, h, hc, List.any_cons]
    · simp [resUpsert, resUpdFirst, h, hc, List.any_cons]

theorem applyResOps_cons (M : List (String × List ℚ)) (r : ResultRec)
    (rs : List ResultRec) :
    applyResOps M (r :: rs) =
      chainArr r.race_id M r ::
        applyResOps (M.filter (fun p => !decide (p.1 = r.race_id))) rs := by
  induction M generalizing r rs with
  | nil => rfl
  | cons p M ih =>
    simp only [applyResOps, List.foldl_cons, chainArr, List.filter_cons]
    rw [resUpsert_cons]
    by_cases h : p.1 = r.race_id
    · have hr : r.race_id = p.1 := h.symm
      rw [if_pos hr]
      have hrec := ih { r with arrival := p.2 } rs
      simp only [applyResOps, chainArr] at hrec
      rw [hrec]
      simp [h]
    · have hr : ¬ r.race_id = p.1 := fun e => h e.symm
      rw [if_neg hr]
      have hrec := ih r (resUpsert p.1 p.2 rs)
      simp only [applyResOps, chainArr] at hrec
      rw [hrec]
      simp [h]

theorem applyResOps_base :
    ∀ M : List (String × List ℚ),
      applyResOps M (applyResOps M []) = applyResOps M []
  | [] => rfl
  | p :: M => by
    have h1 : applyResOps (p :: M) [] =
        applyResOps M [mkResult p.1 p.2] := by
      simp [applyResOps, List.foldl_cons, resUpsert]
    have h2 : applyResOps M [mkResult p.1 p.2] =
        chainArr p.1 M (mkResult p.1 p.2) ::
          applyResOps (M.filter (fun q => !decide (q.1 = p.1))) [] := by
      simpa [mkResult] using applyResOps_cons M (mkResult p.1 p.2) []
    have hcid : (chainArr p.1 M (mkResult p.1 p.2)).race_id = p.1 := by
      rw [chainArr_id]; rfl
    have hset : { chainArr p.1 M (mkResult p.1 p.2) with
        arrival := p.2 } = mkResult p.1 p.2 := by
      rw [chainArr_cf]
      cases lastArr p.1 M <;> rfl
    have hrec := applyResOps_base (M.filter (fun q => !decide (q.1 = p.1)))
    calc applyResOps (p :: M) (applyResOps (p :: M) [])
        = applyResOps M (resUpsert p.1 p.2
            (chainArr p.1 M (mkResult p.1 p.2) ::
              applyResOps (M.filter (fun q => !decide (q.1 = p.1))) [])) := by
          rw [h1, h2]; rfl
      _ = applyResOps M ({ chainArr p.1 M (mkResult p.1 p.2) with
            arrival := p.2 } ::
            applyResOps (M.filter (fun q => !decide (q.1 = p.1))) []) := by
          rw [resUpsert_cons, if_pos hcid]
      _ = applyResOps M (mkResult p.1 p.2 ::
            applyResOps (M.filter (fun q => !decide (q.1 = p.1))) []) := by
          rw [hset]
      _ = chainArr p.1 M (mkResult p.1 p.2) ::
            applyResOps (M.filter (fun q => !decide (q.1 = p.1)))
              (applyResOps (M.filter (fun q => !decide (q.1 = p.1))) []) := by
          simpa [mkResult] using
            applyResOps_cons M (mkResult p.1 p.2)
              (applyResOps (M.filter (fun q => !decide (q.1 = p.1))) [])
      _ = chainArr p.1 M (mkResult p.1 p.2) ::
            applyResOps (M.filter (fun q => !decide (q.1 = p.1))) [] := by
          rw [hrec]
      _ = applyResOps (p :: M) [] := by rw [h1, h2]
termination_by M => M.length
decreasing_by
  exact Nat.lt_succ_of_le (List.length_filter_le _ M)

theorem applyResOps_replay (rs : List ResultRec) :
    ∀ M, applyResOps M (applyResOps M rs) = applyResOps M rs := by
  induction rs with
  | nil => intro M; exact applyResOps_base M
  | cons r rs ih =>
    intro M
    rw [applyResOps_cons, applyResOps_cons]
    simp only [chainArr_id, chainArr_idem]
    rw [ih]

/-- Replaying a stage-2 op sequence on its own output is a no-op. -/
theorem applyOps_replay (L : List SyncOp) (p : List RaceRec × List ResultRec) :
    applyOps L (applyOps L p) = applyOps L p := by
  rw [applyOps_split L p, applyOps_split]
  simp [applyRaceOps_replay, applyResOps_replay]

/-! ## The race-creation stage: coverage and the second-run no-op -/

/-- A (track, race) pair is covered by a set of race keys when the creation
stage would skip it: invalid number, or a matcher hit, or a race already
stored under the deterministic Casa id. -/
def covers (date track : String) (race : CasaRace) (ks : List RaceKey) :
    Prop :=
  raceNumberFromCode race.code = 0 ∨
  (∃ k ∈ ks, keyMatches date track (raceNumberFromCode race.code) k = true) ∨
  (∃ k ∈ ks,
    k.id = casaRaceId date (raceNumberFromCode race.code) track)

theorem keysOf_append (rs : List RaceRec) (r : RaceRec) :
    keysOf (rs ++ [r]) = keysOf rs ++ [raceKey r] := by
  simp [keysOf]

theorem covers_mono {date track race ks} (ext : List RaceKey)
    (h : covers date track race ks) : covers date track race (ks ++ ext) := by
  rcases h with h | ⟨k, hk, hm⟩ | ⟨k, hk, hi⟩
  · exact Or.inl h
  · exact Or.inr (Or.inl ⟨k, List.mem_append_left _ hk, hm⟩)
  · exact Or.inr (Or.inr ⟨k, List.mem_append_left _ hk, hi⟩)

theorem stage1Race_results (date : String) (oracle : DetailOracle)
    (track : String) (race : CasaRace) (st : SyncState) :
    (stage1Race date oracle track race st).results = st.results := by
  unfold stage1Race
  by_cases hn : raceNumberFromCode race.code = 0
  · simp [hn]
  · simp only [if_neg hn]
    cases findRace date track (raceNumberFromCode race.code) st.races with
    | some our => rfl
    | none =>
      cases findRaceById
          (casaRaceId date (raceNumberFromCode race.code) track) st.races with
      | some r => rfl
      | none => rfl

theorem stage1Race_keys (date : String) (oracle : DetailOracle)
    (track : String) (race : CasaRace) (st : SyncState) :
    ∃ ext, keysOf (stage1Race date oracle track race st).races =
      keysOf st.races ++ ext := by
  unfold stage1Race
  by_cases hn : raceNumberFromCode race.code = 0
  · exact ⟨[], by simp [hn]⟩
  · simp only [if_neg hn]
    cases findRace date track (raceNumberFromCode race.code) st.races with
    | some our => exact ⟨[], by simp⟩
    | none =>
      cases findRaceById
          (casaRaceId date (raceNumberFromCode race.code) track) st.races with
      | some r => exact ⟨[], by simp⟩
      | none =>
        simp only [keysOf_applyEnrichment]
        exact ⟨_, keysOf_append _ _⟩

theorem stage1Race_covers (date : String) (oracle : DetailOracle)
    (track : String) (race : CasaRace) (st : SyncState) :
    covers date track race (keysOf (stage1Race date oracle track race st).races) := by
  unfold stage1Race
  by_cases hn : raceNumberFromCode race.code = 0
  · exact Or.inl hn
  · simp only [if_neg hn]
    cases hfr : findRace date track (raceNumberFromCode race.code) st.races with
    | some our =>
      have hfr' : st.races.find?
          (raceMatches date track (raceNumberFromCode race.code)) =
          some our := hfr
      refine Or.inr (Or.inl ⟨raceKey our, ?_, ?_⟩)
      · exact List.mem_map_of_mem raceKey (List.mem_of_find?_eq_some hfr')
      · exact show raceMatches date track (raceNumberFromCode race.code) our =
          true from List.find?_some hfr'
    | none =>
      cases hfi : findRaceById
          (casaRaceId date (raceNumberFromCode race.code) track) st.races with
      | some r =>
        have hfi' : st.races.find? (fun x =>
            x.id = casaRaceId date (raceNumberFromCode race.code) track) =
            some r := hfi
        refine Or.inr (Or.inr ⟨raceKey r, ?_, ?_⟩)
        · exact List.mem_map_of_mem raceKey (List.mem_of_find?_eq_some hfi')
        · have := List.find?_some hfi'
          simpa using this
      | none =>
        refine Or.inr (Or.inl ?_)
        simp only [keysOf_applyEnrichment, keysOf_append]
        refine ⟨{ id := casaRaceId date (raceNumberFromCode race.code) track,
                  date := date, hippodrome := track,
                  race_number := raceNumberFromCode race.code }, ?_, ?_⟩
        · exact List.mem_append_right _ (by simp [raceKey])
        · simp [keyMatches, lowerEq]

theorem stage1Race_of_covers (date : String) (oracle : DetailOracle)
    (track : String) (race : CasaRace) (st : SyncState)
    (h : covers date track race (keysOf st.races)) :
    stage1Race date oracle track race st = st := by
  unfold stage1Race
  rcases h with hn | ⟨k, hk, hm⟩ | ⟨k, hk, hi⟩
  · simp [hn]
  · by_cases hn : raceNumberFromCode race.code = 0
    · simp [hn]
    · simp only [if_neg hn]
      have hsome : (findRace date track (raceNumberFromCode race.code)
          st.races).isSome := by
        have : ((keysOf st.races).find?
            (keyMatches date track (raceNumberFromCode race.code))).isSome := by
          rw [List.find?_isSome]
          exact ⟨k, hk, hm⟩
        rw [findRace_keys] at this
        simpa using this
      cases hfr : findRace date track (raceNumberFromCode race.code)
          st.races with
      | some our => rfl
      | none => rw [hfr] at hsome; simp at hsome
  · by_cases hn : raceNumberFromCode race.code = 0
    · simp [hn]
    · simp only [if_neg hn]
      cases hfr : findRace date track (raceNumberFromCode race.code)
          st.races with
      | some our => rfl
      | none =>
        have hsome : (findRaceById
            (casaRaceId date (raceNumberFromCode race.code) track)
            st.races).isSome := by
          rw [findRaceById, List.find?_isSome]
          rcases List.mem_map.mp hk with ⟨r, hr, hkey⟩
          exact ⟨r, hr, by simp [← hkey] at hi ⊢; exact hi⟩
        cases hfi : findRaceById
            (casaRaceId date (raceNumberFromCode race.code) track)
            st.races with
        | some r => rfl
        | none => rw [hfi] at hsome; simp at hsome

theorem foldStage1_results (date : String) (oracle : DetailOracle)
    (ps : List (String × CasaRace)) (st : SyncState) :
    (foldStage (stage1Race date oracle) ps st).results = st.results := by
  induction ps generalizing st with
  | nil => rfl
  | cons p rest ih =>
    simp only [foldStage, List.foldl_cons]
    rw [show List.foldl (fun s q => stage1Race date oracle q.1 q.2 s)
        (stage1Race date oracle p.1 p.2 st) rest =
        foldStage (stage1Race date oracle) rest
          (stage1Race date oracle p.1 p.2 st) from rfl,
      ih, stage1Race_results]

theorem foldStage1_keys (date : String) (oracle : DetailOracle)
    (ps : List (String × CasaRace)) (st : SyncState) :
    ∃ ext, keysOf (foldStage (stage1Race date oracle) ps st).races =
      keysOf st.races ++ ext := by
  induction ps generalizing st with
  | nil => exact ⟨[], by simp [foldStage]⟩
  | cons p rest ih =>
    rcases ih (stage1Race date oracle p.1 p.2 st) with ⟨ext2, h2⟩
    rcases stage1Race_keys date oracle p.1 p.2 st with ⟨ext1, h1⟩
    refine ⟨ext1 ++ ext2, ?_⟩
    simp only [foldStage, List.foldl_cons]
    rw [show List.foldl (fun s q => stage1Race date oracle q.1 q.2 s)
        (stage1Race date oracle p.1 p.2 st) rest =
        foldStage (stage1Race date oracle) rest
          (stage1Race date oracle p.1 p.2 st) from rfl,
      h2, h1, List.append_assoc]

theorem foldStage1_covers (date : String) (oracle : DetailOracle)
    (ps : List (String × CasaRace)) (st : SyncState) :
    ∀ p ∈ ps, covers date p.1 p.2
      (keysOf (foldStage (stage1Race date oracle) ps st).races) := by
  induction ps generalizing st with
  | nil => intro p hp; cases hp
  | cons q rest ih =>
    intro p hp
    simp only [foldStage, List.foldl_cons]
    rw [show List.foldl (fun s r => stage1Race date oracle r.1 r.2 s)
        (stage1Race date oracle q.1 q.2 st) rest =
        foldStage (stage1Race date oracle) rest
          (stage1Race date oracle q.1 q.2 st) from rfl]
    cases List.mem_cons.mp hp with
    | inl hq =>
      subst hq
      rcases foldStage1_keys date oracle rest
          (stage1Race date oracle p.1 p.2 st) with ⟨ext, hext⟩
      rw [hext]
      exact covers_mono ext (stage1Race_covers date oracle p.1 p.2 st)
    | inr hrest => exact ih (stage1Race date oracle q.1 q.2 st) p hrest

theorem foldStage1_of_covers (date : String) (oracle : DetailOracle)
    (ps : List (String × CasaRace)) (st : SyncState)
    (h : ∀ p ∈ ps, covers date p.1 p.2 (keysOf st.races)) :
    foldStage (stage1Race date oracle) ps st = st := by
  induction ps with
  | nil => rfl
  | cons q rest ih =>
    have hq : stage1Race date oracle q.1 q.2 st = st :=
      stage1Race_of_covers date oracle q.1 q.2 st (h q (List.mem_cons_self q rest))
    simp only [foldStage, List.foldl_cons, hq]
    exact ih (fun p hp => h p (List.mem_cons_of_mem q hp))

/-! ## Idempotence of the sync pass -/

/-- The store-evolving core of a pass: optional race creation, then result
reconciliation. -/
def syncStores (date : String) (oracle : DetailOracle)
    (ms : List CasaMeeting) (addRaces : Bool) (st : SyncState) : SyncState :=
  runStage2 date oracle ms (if addRaces then runStage1 date oracle ms st else st)

/-- Replaying the result stage from any state holding the first run's store
reproduces that store exactly. -/
theorem foldStage2_idem_general (date : String) (oracle : DetailOracle)
    (ps : List (String × CasaRace)) (stB st' : SyncState)
    (hr : st'.races = (foldStage (stage2Race date oracle) ps stB).races)
    (hs : st'.results = (foldStage (stage2Race date oracle) ps stB).results) :
    ((foldStage (stage2Race date oracle) ps st').races,
      (foldStage (stage2Race date oracle) ps st').results) =
    ((foldStage (stage2Race date oracle) ps stB).races,
      (foldStage (stage2Race date oracle) ps stB).results) := by
  have hfacB := foldStage2_factor date oracle ps stB
  have hfac' := foldStage2_factor date oracle ps st'
  have hkeys : keysOf st'.races = keysOf stB.races := by
    rw [hr, keysOf_foldStage2]
  have hpair : (st'.races, st'.results) =
      applyOps (stage2PassOps date oracle ps (keysOf stB.races))
        (stB.races, stB.results) := by
    have h0 : (st'.races, st'.results) =
        ((foldStage (stage2Race date oracle) ps stB).races,
          (foldStage (stage2Race date oracle) ps stB).results) := by
      rw [hr, hs]
    rw [h0, hfacB]
  calc ((foldStage (stage2Race date oracle) ps st').races,
        (foldStage (stage2Race date oracle) ps st').results)
      = applyOps (stage2PassOps date oracle ps (keysOf st'.races))
          (st'.races, st'.results) := hfac'
    _ = applyOps (stage2PassOps date oracle ps (keysOf stB.races))
          (applyOps (stage2PassOps date oracle ps (keysOf stB.races))
            (stB.races, stB.results)) := by rw [hkeys, hpair]
    _ = applyOps (stage2PassOps date oracle ps (keysOf stB.races))
          (stB.races, stB.results) := applyOps_replay _ _
    _ = ((foldStage (stage2Race date oracle) ps stB).races,
          (foldStage (stage2Race date oracle) ps stB).results) := hfacB.symm

/-- Core idempotence: a second pass started from the first pass's store
(with any report state) leaves the store unchanged. -/
theorem syncStores_idem (date : String) (oracle : DetailOracle)
    (ms : List CasaMeeting) (addRaces : Bool) (st st' : SyncState)
    (hr : st'.races = (syncStores date oracle ms addRaces st).races)
    (hs : st'.results = (syncStores date oracle ms addRaces st).results) :
    ((syncStores date oracle ms addRaces st').races,
      (syncStores date oracle ms addRaces st').results) =
    ((syncStores date oracle ms addRaces st).races,
      (syncStores date oracle ms addRaces st).results) := by
  unfold syncStores at hr hs ⊢
  by_cases haddr : addRaces = true
  · simp only [if_pos haddr] at hr hs ⊢
    simp only [runStage2_eq_foldStage, runStage1_eq_foldStage] at hr hs ⊢
    have hcov : ∀ p ∈ progPairs ms, covers date p.1 p.2
        (keysOf (foldStage (stage1Race date oracle) (progPairs ms) st).races) :=
      foldStage1_covers date oracle (progPairs ms) st
    have hkeys' : keysOf st'.races =
        keysOf (foldStage (stage1Race date oracle) (progPairs ms) st).races := by
      rw [hr, keysOf_foldStage2]
    have hnoop : foldStage (stage1Race date oracle) (progPairs ms) st' = st' :=
      foldStage1_of_covers date oracle (progPairs ms) st'
        (fun p hp => hkeys' ▸ hcov p hp)
    rw [hnoop]
    exact foldStage2_idem_general date oracle (progPairs ms) _ st' hr hs
  · simp only [if_neg haddr] at hr hs ⊢
    simp only [runStage2_eq_foldStage] at hr hs ⊢
    exact foldStage2_idem_general date oracle (progPairs ms) st st' hr hs

/-- The store component of a pass, in terms of `syncStores`. -/
theorem runPure_store (resp : CasaProgrammeResponse) (oracle : DetailOracle)
    (opts : SyncOptions) (store : Store) :
    (runCasaProgrammeSyncPure resp oracle opts store).2 =
      { races := (syncStores opts.date oracle
          ((resp.meetings.getD []).filter isMoroccoMeeting) opts.addRaces
          (initState store)).races
        results := (syncStores opts.date oracle
          ((resp.meetings.getD []).filter isMoroccoMeeting) opts.addRaces
          (initState store)).results } := rfl

/-- C1: For any fixed external feed response (programme response and detail
oracle), running `runCasaProgrammeSync` twice in succession with the same
date, venue and addRaces inputs leaves the store in the same state after
the second run as after the first: no duplicate Race or Result records are
created, and every Result's arrival array is unchanged by the second run. -/
theorem C1_runCasaProgrammeSync_idempotent (resp : CasaProgrammeResponse)
    (oracle : DetailOracle) (opts : SyncOptions) (store : Store) :
    (runCasaProgrammeSyncPure resp oracle opts
      (runCasaProgrammeSyncPure resp oracle opts store).2).2 =
    (runCasaProgrammeSyncPure resp oracle opts store).2 := by
  have h := syncStores_idem opts.date oracle
    ((resp.meetings.getD []).filter isMoroccoMeeting) opts.addRaces
    (initState store)
    (initState (runCasaProgrammeSyncPure resp oracle opts store).2) rfl rfl
  calc (runCasaProgrammeSyncPure resp oracle opts
        (runCasaProgrammeSyncPure resp oracle opts store).2).2
      = { races := (syncStores opts.date oracle
            ((resp.meetings.getD []).filter isMoroccoMeeting) opts.addRaces
            (initState (runCasaProgrammeSyncPure resp oracle opts store).2)).races
          results := (syncStores opts.date oracle
            ((resp.meetings.getD []).filter isMoroccoMeeting) opts.addRaces
            (initState (runCasaProgrammeSyncPure resp oracle opts store).2)).results } :=
        runPure_store ..
    _ = { races := (syncStores opts.date oracle
            ((resp.meetings.getD []).filter isMoroccoMeeting) opts.addRaces
            (initState store)).races
          results := (syncStores opts.date oracle
            ((resp.meetings.getD []).filter isMoroccoMeeting) opts.addRaces
            (initState store)).results } :=
        congrArg (fun q : List RaceRec × List ResultRec =>
          ({ races := q.1, results := q.2 } : Store)) h
    _ = (runCasaProgrammeSyncPure resp oracle opts store).2 :=
        (runPure_store ..).symm






/-! ## Claim theorems: result-stage per-race behaviour -/

/-- C5: For every finished external race with a non-empty normalized arrival
for which the matcher finds no internal Race (exact date window,
case-insensitive venue, exact race number), the pass records a not-found
report entry containing the venue, the race number and the external race
name, and creates no Race and no Result as a side effect. -/
theorem C5_not_found_accounting (date : String) (oracle : DetailOracle)
    (track : String) (race : CasaRace) (st : SyncState)
    (hfin : race.finished = some true)
    (hfo : race.finish_order.getD [] ≠ [])
    (hn : ¬ raceNumberFromCode race.code = 0)
    (ha : ¬ arrivalFromFinishOrder (race.finish_order.getD []) = [])
    (hfr : findRace date track (raceNumberFromCode race.code) st.races = none) :
    stage2Race date oracle track race st =
      { st with notFound := st.notFound ++
          [track ++ " C" ++ toString (raceNumberFromCode race.code) ++
            " (" ++ race.name ++ ")"] } := by
  have hguard : ¬ (¬ (race.finished = some true) ∨
      race.finish_order.getD [] = []) := by
    rintro (h | h)
    · exact h hfin
    · exact hfo h
  simp only [stage2Race]
  rw [if_neg hguard, if_neg hn, if_neg ha, hfr]

theorem C5_not_found_accounting_witness :
    (let race : CasaRace :=
      { id := 3, code := some "C2", name := "Prix Z", finished := some true,
        finish_order := some [FinishItem.num 4, FinishItem.num 2] }
     let st := initState { races := [], results := [] }
     race.finished = some true ∧
     race.finish_order.getD [] ≠ [] ∧
     ¬ raceNumberFromCode race.code = 0 ∧
     ¬ arrivalFromFinishOrder (race.finish_order.getD []) = [] ∧
     findRace "2026-01-01" "Rabat" (raceNumberFromCode race.code) st.races =
       none ∧
     stage2Race "2026-01-01" (fun _ => none) "Rabat" race st =
       { st with notFound := st.notFound ++
           [("Rabat" : String) ++ " C" ++
             toString (raceNumberFromCode race.code) ++ " (" ++ race.name ++
             ")"] }) := by
  refine ⟨rfl, by decide, by decide, by decide, rfl, ?_⟩
  exact C5_not_found_accounting "2026-01-01" (fun _ => none) "Rabat" _ _
    rfl (by decide) (by decide) (by decide) rfl

/-- C6 counterexample data: a finished race whose `finish_order` is the
empty list. -/
def c6Race : CasaRace :=
  { id := 1, code := some "C5", name := "Prix T", finished := some true,
    finish_order := some [] }

/-- C6 (counterexample): a finished external race whose finish-order list is
empty yields zero usable arrival entries after normalization, yet the pass
records NO diagnostic entry for it — the guard skips it silently before the
skip-accounting runs, so the claim as stated is false. -/
theorem C6_counterexample :
    c6Race.finished = some true ∧
    arrivalFromFinishOrder (c6Race.finish_order.getD []) = [] ∧
    stage2Race "2026-01-01" (fun _ => none) "Rabat" c6Race
        (initState { races := [], results := [] }) =
      initState { races := [], results := [] } ∧
    (stage2Race "2026-01-01" (fun _ => none) "Rabat" c6Race
        (initState { races := [], results := [] })).skipped = [] := by
  refine ⟨rfl, rfl, ?_, ?_⟩ <;> rfl

/-- C6 (amended): For every external race whose finished flag is true and
whose finish-order list is non-empty but yields zero usable arrival entries
after normalization, the pass creates or updates no Result for that race
and records a diagnostic entry for it in the report's skipped list.  (A
finished race whose finish-order list is empty or missing is skipped
silently, with no report entry.) -/
theorem C6_empty_normalization_skipped (date : String) (oracle : DetailOracle)
    (track : String) (race : CasaRace) (st : SyncState)
    (hfin : race.finished = some true)
    (hfo : race.finish_order.getD [] ≠ [])
    (ha : arrivalFromFinishOrder (race.finish_order.getD []) = []) :
    (stage2Race date oracle track race st).races = st.races ∧
    (stage2Race date oracle track race st).results = st.results ∧
    (stage2Race date oracle track race st).created = st.created ∧
    (stage2Race date oracle track race st).updated = st.updated ∧
    ∃ e, (stage2Race date oracle track race st).skipped = st.skipped ++ [e] := by
  have hguard : ¬ (¬ (race.finished = some true) ∨
      race.finish_order.getD [] = []) := by
    rintro (h | h)
    · exact h hfin
    · exact hfo h
  simp only [stage2Race]
  rw [if_neg hguard]
  by_cases hn : raceNumberFromCode race.code = 0
  · rw [if_pos hn]
    exact ⟨rfl, rfl, rfl, rfl, _, rfl⟩
  · rw [if_neg hn, if_pos ha]
    exact ⟨rfl, rfl, rfl, rfl, _, rfl⟩

theorem C6_empty_normalization_skipped_witness :
    (let race : CasaRace :=
      { id := 2, code := some "C3", name := "Prix U", finished := some true,
        finish_order := some [FinishItem.obj none] }
     let st := initState { races := [], results := [] }
     race.finished = some true ∧
     race.finish_order.getD [] ≠ [] ∧
     arrivalFromFinishOrder (race.finish_order.getD []) = [] ∧
     ((stage2Race "2026-01-01" (fun _ => none) "Rabat" race st).races =
         st.races ∧
       (stage2Race "2026-01-01" (fun _ => none) "Rabat" race st).results =
         st.results ∧
       (stage2Race "2026-01-01" (fun _ => none) "Rabat" race st).created =
         st.created ∧
       (stage2Race "2026-01-01" (fun _ => none) "Rabat" race st).updated =
         st.updated ∧
       ∃ e, (stage2Race "2026-01-01" (fun _ => none) "Rabat" race st).skipped =
         st.skipped ++ [e])) := by
  refine ⟨rfl, by decide, by decide, ?_⟩
  exact C6_empty_normalization_skipped "2026-01-01" (fun _ => none) "Rabat" _ _
    rfl (by decide) (by decide)

/-- C2: Whenever a sync pass updates an existing Result (one already stored
for the matched Race's identifier), only the arrival field is written: the
Result's rapports, simple, couple and trio payout maps (and its key) are
byte-for-byte unchanged by the update. -/
theorem C2_update_preserves_payout_maps (date : String) (oracle : DetailOracle)
    (track : String) (race : CasaRace) (st : SyncState) (our : RaceRec)
    (hfin : race.finished = some true)
    (hfo : race.finish_order.getD [] ≠ [])
    (hn : ¬ raceNumberFromCode race.code = 0)
    (ha : ¬ arrivalFromFinishOrder (race.finish_order.getD []) = [])
    (hfr : findRace date track (raceNumberFromCode race.code) st.races =
      some our)
    (hex : st.results.any (fun r => r.race_id = our.id) = true) :
    (stage2Race date oracle track race st).results =
      resUpdFirst our.id (arrivalFromFinishOrder (race.finish_order.getD []))
        st.results ∧
    ((stage2Race date oracle track race st).results).map
        (fun x => (x.race_id, x.rapports, x.simple, x.couple, x.trio)) =
      st.results.map
        (fun x => (x.race_id, x.rapports, x.simple, x.couple, x.trio)) := by
  have hguard : ¬ (¬ (race.finished = some true) ∨
      race.finish_order.getD [] = []) := by
    rintro (h | h)
    · exact h hfin
    · exact hfo h
  have h1 : (stage2Race date oracle track race st).results =
      resUpdFirst our.id (arrivalFromFinishOrder (race.finish_order.getD []))
        st.results := by
    simp only [stage2Race]
    rw [if_neg hguard, if_neg hn, if_neg ha, hfr]
    simp only [hex, if_pos]
  exact ⟨h1, by rw [h1, resUpdFirst_proj]⟩

/-- Concrete store for the C2 witness. -/
def wRace1 : RaceRec :=
  { id := "r1", date := "2026-01-01", hippodrome := "Rabat", race_number := 1,
    time := "12:00", distance := 1600, title := "T", purse := 100,
    pursecurrency := "Dh", weather_temp := none, participants := [] }

def wResult1 : ResultRec :=
  { race_id := "r1", arrival := [9, 8], rapports := [("1", 2)],
    simple := [("s", 3)], couple := [("c", 4)], trio := [("t", 5)] }

def wStore : Store := { races := [wRace1], results := [wResult1] }

theorem C2_update_preserves_payout_maps_witness :
    (let race : CasaRace :=
      { id := 5, code := some "C1", name := "P", finished := some true,
        finish_order := some [FinishItem.num 2, FinishItem.num 1] }
     let st := initState wStore
     race.finished = some true ∧
     race.finish_order.getD [] ≠ [] ∧
     ¬ raceNumberFromCode race.code = 0 ∧
     ¬ arrivalFromFinishOrder (race.finish_order.getD []) = [] ∧
     findRace "2026-01-01" "Rabat" (raceNumberFromCode race.code) st.races =
       some wRace1 ∧
     st.results.any (fun r => r.race_id = wRace1.id) = true ∧
     ((stage2Race "2026-01-01" (fun _ => none) "Rabat" race st).results =
         resUpdFirst wRace1.id
           (arrivalFromFinishOrder (race.finish_order.getD [])) st.results ∧
       ((stage2Race "2026-01-01" (fun _ => none) "Rabat" race st).results).map
           (fun x => (x.race_id, x.rapports, x.simple, x.couple, x.trio)) =
         st.results.map
           (fun x => (x.race_id, x.rapports, x.simple, x.couple, x.trio)))) := by
  refine ⟨rfl, by decide, by decide, by decide, by decide, by decide, ?_⟩
  exact C2_update_preserves_payout_maps "2026-01-01" (fun _ => none) "Rabat" _
    _ wRace1 rfl (by decide) (by decide) (by decide) (by decide) (by decide)

/-! ## Claim theorems: venue allow-list and alias collapsing -/

def c3Race : CasaRace :=
  { id := 9, code := some "C1", name := "Prix W", time_hm := some "13:00",
    distance := 1600, finished := some false, finish_order := none }

/-- A meeting whose venue collapses to `"e l jadida"`: not on the allow-list
after whitespace *collapsing*, but accepted by the code's extra
whitespace-*removal* check. -/
def c3Meeting : CasaMeeting :=
  { track := some "e l jadida", country := some "France",
    races := some [c3Race] }

def c3Resp : CasaProgrammeResponse := { meetings := some [c3Meeting] }

/-- C3 (counterexample): the meeting's venue, after case-folding and
whitespace collapsing, is in neither the allow-list nor the alias set, yet
the sync pass still creates a race for it (the code also accepts a venue
whose fully whitespace-stripped form is allow-listed), so the claim as
stated is false. -/
theorem C3_counterexample :
    MOROCCO_TRACKS.contains (normTrack (c3Meeting.track.getD "")) = false ∧
    CASABLANCA_ANFA_ALIASES.contains
        (normTrack (c3Meeting.track.getD "")) = false ∧
    (runCasaProgrammeSyncPure c3Resp (fun _ => none)
        { date := "2026-01-01", venue := "SOREC", addRaces := true }
        { races := [], results := [] }).1.racesAdded ≠ [] ∧
    (runCasaProgrammeSyncPure c3Resp (fun _ => none)
        { date := "2026-01-01", venue := "SOREC", addRaces := true }
        { races := [], results := [] }).2.races ≠ [] := by
  refine ⟨by decide, by decide, by decide, by decide⟩

/-- C3 (amended): For every meeting in the fetched programme whose venue
name, after case-folding and whitespace collapsing — and also with all
whitespace removed — is not in the fixed venue allow-list (which contains
the alias spellings), the sync pass takes no action for that meeting in
either the race-creation stage or the result-reconciliation stage,
regardless of any country marker carried by the meeting. -/
theorem C3_venue_allow_list (m : CasaMeeting)
    (h1 : MOROCCO_TRACKS.contains (normTrack (m.track.getD "")) = false)
    (h2 : MOROCCO_TRACKS.contains
      (stripWs (normTrack (m.track.getD ""))) = false)
    (resp : CasaProgrammeResponse) (pre post : List CasaMeeting)
    (oracle : DetailOracle) (opts : SyncOptions) (store : Store)
    (hm : resp.meetings = some (pre ++ m :: post)) :
    (runCasaProgrammeSyncPure resp oracle opts store).2 =
      (runCasaProgrammeSyncPure { resp with meetings := some (pre ++ post) }
        oracle opts store).2 ∧
    (runCasaProgrammeSyncPure resp oracle opts store).1.racesAdded =
      (runCasaProgrammeSyncPure { resp with meetings := some (pre ++ post) }
        oracle opts store).1.racesAdded ∧
    (runCasaProgrammeSyncPure resp oracle opts store).1.created =
      (runCasaProgrammeSyncPure { resp with meetings := some (pre ++ post) }
        oracle opts store).1.created ∧
    (runCasaProgrammeSyncPure resp oracle opts store).1.updated =
      (runCasaProgrammeSyncPure { resp with meetings := some (pre ++ post) }
        oracle opts store).1.updated ∧
    (runCasaProgrammeSyncPure resp oracle opts store).1.skipped =
      (runCasaProgrammeSyncPure { resp with meetings := some (pre ++ post) }
        oracle opts store).1.skipped ∧
    (runCasaProgrammeSyncPure resp oracle opts store).1.notFound =
      (runCasaProgrammeSyncPure { resp with meetings := some (pre ++ post) }
        oracle opts store).1.notFound ∧
    (runCasaProgrammeSyncPure resp oracle opts store).1.meetingsMorocco =
      (runCasaProgrammeSyncPure { resp with meetings := some (pre ++ post) }
        oracle opts store).1.meetingsMorocco := by
  have hmor : isMoroccoMeeting m = false := by
    simp only [isMoroccoMeeting, trackAllowed]
    by_cases h0 : normTrack (m.track.getD "") = ""
    · simp [h0]
    · rw [if_neg h0, h1, h2]
      rfl
  have hfilter : (pre ++ m :: post).filter isMoroccoMeeting =
      (pre ++ post).filter isMoroccoMeeting := by
    simp [List.filter_append, List.filter_cons, hmor]
  simp only [runCasaProgrammeSyncPure, hm, Option.getD_some, hfilter]
  simp

theorem C3_venue_allow_list_witness :
    (let m : CasaMeeting :=
      { track := some "Paris", country := some "Morocco",
        races := some [c3Race] }
     let resp : CasaProgrammeResponse := { meetings := some ([] ++ m :: []) }
     MOROCCO_TRACKS.contains (normTrack (m.track.getD "")) = false ∧
     MOROCCO_TRACKS.contains (stripWs (normTrack (m.track.getD ""))) = false ∧
     resp.meetings = some ([] ++ m :: []) ∧
     (runCasaProgrammeSyncPure resp (fun _ => none)
         { date := "2026-01-01", venue := "SOREC", addRaces := true }
         { races := [], results := [] }).2 =
       (runCasaProgrammeSyncPure { resp with meetings := some ([] ++ []) }
         (fun _ => none)
         { date := "2026-01-01", venue := "SOREC", addRaces := true }
         { races := [], results := [] }).2) := by
  refine ⟨by decide, by decide, rfl, ?_⟩
  exact (C3_venue_allow_list _ (by decide) (by decide) _ [] [] (fun _ => none)
    { date := "2026-01-01", venue := "SOREC", addRaces := true }
    { races := [], results := [] } rfl).1

/-! ## Claim theorems: alias collapsing and race uniqueness -/

/-- No two stored races share a calendar date, a case-insensitively equal
venue and a race number. -/
@[reducible] def racesUnique (rs : List RaceRec) : Prop :=
  (keysOf rs).Pairwise (fun a b =>
    ¬ (a.date = b.date ∧ lowerEq a.hippodrome b.hippodrome = true ∧
        a.race_number = b.race_number))

theorem getCanonicalTrack_alias (s : String)
    (h : CASABLANCA_ANFA_ALIASES.contains (normTrack s) = true ∨
      CASABLANCA_ANFA_ALIASES.contains (stripWs (normTrack s)) = true) :
    getCanonicalTrack s = "Casablanca" := by
  unfold getCanonicalTrack
  by_cases h0 : normTrack s = ""
  · exfalso
    rw [h0] at h
    rcases h with h | h
    · exact absurd h (by decide)
    · exact absurd h (by decide)
  · rw [if_neg h0]
    have hc : (CASABLANCA_ANFA_ALIASES.contains (normTrack s) ||
        CASABLANCA_ANFA_ALIASES.contains (stripWs (normTrack s))) = true := by
      rcases h with h | h
      · rw [h, Bool.true_or]
      · rw [h, Bool.or_true]
    rw [if_pos hc]

theorem stage1Race_uniq (date : String) (oracle : DetailOracle)
    (track : String) (race : CasaRace) (st : SyncState)
    (h : racesUnique st.races) :
    racesUnique (stage1Race date oracle track race st).races := by
  unfold stage1Race
  by_cases hn : raceNumberFromCode race.code = 0
  · simpa [hn] using h
  · simp only [if_neg hn]
    cases hfr : findRace date track (raceNumberFromCode race.code)
        st.races with
    | some our => exact h
    | none =>
      cases hfi : findRaceById
          (casaRaceId date (raceNumberFromCode race.code) track) st.races with
      | some r => exact h
      | none =>
        unfold racesUnique at h ⊢
        rw [keysOf_applyEnrichment, keysOf_append, List.pairwise_append]
        refine ⟨h, List.pairwise_singleton .., ?_⟩
        intro a ha b hb
        rcases List.mem_singleton.mp hb with rfl
        rcases List.mem_map.mp ha with ⟨r, hr, rfl⟩
        have hnm := List.find?_eq_none.mp
          (show st.races.find?
            (raceMatches date track (raceNumberFromCode race.code)) = none
            from hfr) r hr
        rintro ⟨hd, hh, hnum⟩
        apply hnm
        simp only [raceMatches, keyMatches, raceKey] at hd hh hnum ⊢
        simp [hd, hh, hnum]

theorem foldStage1_uniq (date : String) (oracle : DetailOracle)
    (ps : List (String × CasaRace)) (st : SyncState)
    (h : racesUnique st.races) :
    racesUnique (foldStage (stage1Race date oracle) ps st).races := by
  induction ps generalizing st with
  | nil => exact h
  | cons p rest ih =>
    simp only [foldStage, List.foldl_cons]
    exact ih (stage1Race date oracle p.1 p.2 st)
      (stage1Race_uniq date oracle p.1 p.2 st h)

/-- C4: For every two feed venue spellings that denote the same physical
venue per the alias table, the sync produces the identical canonical Race
venue value `"Casablanca"` — so the two spellings are never matched as
distinct venues — and a sync pass never leaves the store with two distinct
Races for the same date + case-insensitive venue + race-number triple. -/
theorem C4_alias_collapsing :
    (∀ s1 s2 : String,
      (CASABLANCA_ANFA_ALIASES.contains (normTrack s1) = true ∨
        CASABLANCA_ANFA_ALIASES.contains (stripWs (normTrack s1)) = true) →
      (CASABLANCA_ANFA_ALIASES.contains (normTrack s2) = true ∨
        CASABLANCA_ANFA_ALIASES.contains (stripWs (normTrack s2)) = true) →
      getCanonicalTrack s1 = "Casablanca" ∧
        getCanonicalTrack s1 = getCanonicalTrack s2) ∧
    (∀ (resp : CasaProgrammeResponse) (oracle : DetailOracle)
        (opts : SyncOptions) (store : Store), racesUnique store.races →
      racesUnique (runCasaProgrammeSyncPure resp oracle opts store).2.races) := by
  constructor
  · intro s1 s2 h1 h2
    refine ⟨getCanonicalTrack_alias s1 h1, ?_⟩
    rw [getCanonicalTrack_alias s1 h1, getCanonicalTrack_alias s2 h2]
  · intro resp oracle opts store h
    have hstore := runPure_store resp oracle opts store
    have hraces : (runCasaProgrammeSyncPure resp oracle opts store).2.races =
        (syncStores opts.date oracle
          ((resp.meetings.getD []).filter isMoroccoMeeting) opts.addRaces
          (initState store)).races := congrArg Store.races hstore
    rw [hraces]
    unfold syncStores racesUnique
    rw [runStage2_eq_foldStage, keysOf_foldStage2]
    by_cases haddr : opts.addRaces = true
    · simp only [if_pos haddr, runStage1_eq_foldStage]
      exact foldStage1_uniq opts.date oracle _ (initState store) h
    · simp only [if_neg haddr]
      exact h

def c4RaceA : CasaRace :=
  { id := 11, code := some "C1", name := "A", finished := some true,
    finish_order := some [FinishItem.num 1] }

def c4RaceB : CasaRace :=
  { id := 12, code := some "C1", name := "B", finished := some true,
    finish_order := some [FinishItem.num 2] }

def c4Resp : CasaProgrammeResponse :=
  { meetings := some
      [{ track := some "Anfa", country := some "Morocco",
         races := some [c4RaceA] },
       { track := some "Casablanca", country := none,
         races := some [c4RaceB] }] }

theorem C4_alias_collapsing_witness :
    ((CASABLANCA_ANFA_ALIASES.contains (normTrack "ANFA") = true ∨
        CASABLANCA_ANFA_ALIASES.contains (stripWs (normTrack "ANFA")) = true) ∧
      (CASABLANCA_ANFA_ALIASES.contains (normTrack "Casablanca Anfa") = true ∨
        CASABLANCA_ANFA_ALIASES.contains
          (stripWs (normTrack "Casablanca Anfa")) = true) ∧
      racesUnique wStore.races) ∧
    (getCanonicalTrack "ANFA" = "Casablanca" ∧
      getCanonicalTrack "ANFA" = getCanonicalTrack "Casablanca Anfa") ∧
    racesUnique (runCasaProgrammeSyncPure c4Resp (fun _ => none)
      { date := "2026-01-01", venue := "SOREC", addRaces := true }
      wStore).2.races := by
  refine ⟨⟨by decide, by decide, by decide⟩, ?_, ?_⟩
  · exact C4_alias_collapsing.1 "ANFA" "Casablanca Anfa" (by decide) (by decide)
  · exact C4_alias_collapsing.2 c4Resp (fun _ => none)
      { date := "2026-01-01", venue := "SOREC", addRaces := true } wStore
      (by decide)

/-! ## Claim theorems: race-number parsing -/

theorem digit_not_ws (c : Char) (h : c.isDigit = true) : isJsWs c = false := by
  unfold isJsWs
  by_cases h1 : c = ' '
  · subst h1; exact absurd h (by decide)
  by_cases h2 : c = '\t'
  · subst h2; exact absurd h (by decide)
  by_cases h3 : c = '\n'
  · subst h3; exact absurd h (by decide)
  by_cases h4 : c = '\r'
  · subst h4; exact absurd h (by decide)
  simp [h1, h2, h3, h4]

theorem digit_ne_minus (c : Char) (h : c.isDigit = true) : ¬ c = '-' := by
  intro hc; subst hc; exact absurd h (by decide)

theorem digit_ne_plus (c : Char) (h : c.isDigit = true) : ¬ c = '+' := by
  intro hc; subst hc; exact absurd h (by decide)

theorem takeWhile_all {p : Char → Bool} {l : List Char}
    (h : ∀ x ∈ l, p x = true) : l.takeWhile p = l := by
  induction l with
  | nil => rfl
  | cons c t ih =>
    rw [List.takeWhile_cons, h c (List.mem_cons_self c t)]
    simp [ih (fun x hx => h x (List.mem_cons_of_mem c hx))]

theorem jsParseInt_digits (ds : List Char) (hne : ds ≠ [])
    (hall : ∀ c ∈ ds, c.isDigit = true) :
    jsParseInt ⟨ds⟩ = some ((digitsToNat ds : ℕ) : ℤ) := by
  cases ds with
  | nil => exact absurd rfl hne
  | cons c t =>
    have hc := hall c (List.mem_cons_self c t)
    unfold jsParseInt
    rw [show (String.mk (c :: t)).data = c :: t from rfl]
    rw [List.dropWhile_cons, digit_not_ws c hc]
    simp only [Bool.false_eq_true, if_false]
    rw [if_neg (digit_ne_minus c hc), if_neg (digit_ne_plus c hc)]
    unfold digitPrefixVal
    rw [takeWhile_all hall]
    simp

/-- `cCodeDigits` succeeds only on `C<digits>`: the digits are non-empty and
the whole trimmed code is the leading letter followed by them. -/
theorem cCodeDigits_some {t : String} {ds : List Char}
    (h : cCodeDigits t = some ds) :
    ds ≠ [] ∧ (∀ c ∈ ds, c.isDigit = true) ∧ ∃ c, t.data = c :: ds := by
  unfold cCodeDigits at h
  cases ht : t.data with
  | nil => rw [ht] at h; exact absurd h (by simp)
  | cons c rest =>
    rw [ht] at h
    have h' : (if (c = 'C' ∨ c = 'c') ∧ rest ≠ [] ∧
        rest.all Char.isDigit = true then some rest else none) = some ds := h
    by_cases hcond : (c = 'C' ∨ c = 'c') ∧ rest ≠ [] ∧
        rest.all Char.isDigit = true
    · rw [if_pos hcond] at h'
      obtain ⟨-, h2, h3⟩ := hcond
      cases h'
      exact ⟨h2, by simpa [List.all_eq_true] using h3, c, rfl⟩
    · rw [if_neg hcond] at h'; cases h'

/-- `raceNumberFromCode` on a present code, with the option layer reduced. -/
theorem raceNumberFromCode_some (s : String) :
    raceNumberFromCode (some s) =
      (match cCodeDigits (jsTrim s) with
       | some ds => digitsToNat ds
       | none =>
         match jsParseInt ⟨(jsTrim s).data.filter Char.isDigit⟩ with
         | some z => z.toNat
         | none => 0) := rfl

/-- The spec's literal fallback reading: the first run of digits.
Modelled from the spec: "fall back to extracting the first run of digits". -/
def specFirstRunOfDigits (s : String) : List Char :=
  (s.data.dropWhile (fun c => !c.isDigit)).takeWhile Char.isDigit

/-- C7 (counterexample): on `"1a2"` the fallback of `raceNumberFromCode`
strips every non-digit and parses the concatenation, yielding 12, while the
claim's "first run of digits" reading yields 1 — so the claim as stated is
false. -/
theorem C7_counterexample :
    raceNumberFromCode (some "1a2") = 12 ∧
    digitsToNat (specFirstRunOfDigits "1a2") = 1 ∧
    raceNumberFromCode (some "1a2") ≠
      digitsToNat (specFirstRunOfDigits "1a2") := by
  refine ⟨by decide, by decide, by decide⟩

/-- C7 (amended): `raceNumberFromCode` parses a code of the form `C<digits>`
case-insensitively into the integer after the letter; when that form does
not match, it falls back to removing every non-digit character and parsing
the concatenated digits; when no digits are present it returns the invalid
value 0.  In particular `"C8"` yields 8, `"8"` yields 8, `"C"` yields 0,
and an empty or missing code yields 0. -/
theorem C7_race_number_parsing :
    (∀ s ds, cCodeDigits (jsTrim s) = some ds →
      raceNumberFromCode (some s) = digitsToNat ds) ∧
    (∀ s, cCodeDigits (jsTrim s) = none →
      (jsTrim s).data.filter Char.isDigit ≠ [] →
      raceNumberFromCode (some s) =
        digitsToNat ((jsTrim s).data.filter Char.isDigit)) ∧
    (∀ s, (jsTrim s).data.filter Char.isDigit = [] →
      raceNumberFromCode (some s) = 0) ∧
    raceNumberFromCode (some "C8") = 8 ∧
    raceNumberFromCode (some "8") = 8 ∧
    raceNumberFromCode (some "C") = 0 ∧
    raceNumberFromCode (some "") = 0 ∧
    raceNumberFromCode none = 0 := by
  refine ⟨?_, ?_, ?_, by decide, by decide, by decide, by decide, rfl⟩
  · intro s ds h
    rw [raceNumberFromCode_some, h]
  · intro s h hne
    rw [raceNumberFromCode_some, h, jsParseInt_digits _ hne
      (fun c hc => (List.mem_filter.mp hc).2)]
    simp
  · intro s h
    cases hc : cCodeDigits (jsTrim s) with
    | some ds =>
      obtain ⟨hne, hdig, c0, hdata⟩ := cCodeDigits_some hc
      exfalso
      have hsub : (jsTrim s).data.filter Char.isDigit ≠ [] := by
        rw [hdata, List.filter_cons]
        have hds : ds.filter Char.isDigit = ds :=
          List.filter_eq_self.mpr (fun a ha => hdig a ha)
        by_cases hc0 : Char.isDigit c0 = true
        · simp [hc0, hds]
        · simp only [hc0]
          simp [hds, hne]
      exact hsub h
    | none =>
      rw [raceNumberFromCode_some, hc, h]
      rfl

theorem C7_race_number_parsing_witness :
    cCodeDigits (jsTrim "C12") = some ['1', '2'] ∧
    raceNumberFromCode (some "C12") = digitsToNat ['1', '2'] ∧
    cCodeDigits (jsTrim "x47y") = none ∧
    (jsTrim "x47y").data.filter Char.isDigit ≠ [] ∧
    raceNumberFromCode (some "x47y") =
      digitsToNat ((jsTrim "x47y").data.filter Char.isDigit) ∧
    (jsTrim "zz").data.filter Char.isDigit = [] ∧
    raceNumberFromCode (some "zz") = 0 := by
  refine ⟨by decide, ?_, by decide, by decide, ?_, by decide, ?_⟩
  · exact C7_race_number_parsing.1 "C12" ['1', '2'] (by decide)
  · exact C7_race_number_parsing.2.1 "x47y" (by decide) (by decide)
  · exact C7_race_number_parsing.2.2.1 "zz" (by decide)

/-! ## Claim theorems: finish-order normalization -/

/-- The item shapes for which the spec's "positive integers" conclusion is
provable: bare positive integers, and objects whose `number` field — when
it is a raw number — is integer-valued (string fields are parsed with
`parseInt` and are always integers). -/
def goodFinishItem : FinishItem → Prop
  | FinishItem.num n => 1 ≤ n ∧ ∃ m : ℕ, (m : ℚ) = n
  | FinishItem.obj field =>
    match field with
    | some (Sum.inl q) => ∃ m : ℤ, (m : ℚ) = q
    | _ => True
  | FinishItem.nullItem => True

/-- C8 (counterexample): an object whose numeric `number` field is 5/2
satisfies the claim's hypothesis ("objects exposing a numeric number
field"), yet `arrivalFromFinishOrder` keeps the raw value 5/2, which is not
a positive integer — so the claim as stated is false. -/
theorem C8_counterexample :
    arrivalFromFinishOrder [FinishItem.obj (some (Sum.inl (5 / 2)))] =
      [5 / 2] ∧
    ¬ ∀ q ∈ arrivalFromFinishOrder [FinishItem.obj (some (Sum.inl (5 / 2)))],
        ∃ m : ℕ, (m : ℚ) = q := by
  have harr : arrivalFromFinishOrder
      [FinishItem.obj (some (Sum.inl (5 / 2)))] =
      if (1 : ℚ) ≤ 5 / 2 then [5 / 2] else [] := rfl
  have harr2 : arrivalFromFinishOrder
      [FinishItem.obj (some (Sum.inl (5 / 2)))] = [5 / 2] := by
    rw [harr, if_pos (by norm_num : (1 : ℚ) ≤ 5 / 2)]
  constructor
  · exact harr2
  · intro hf
    have h52 : ((5 : ℚ) / 2) ∈
        arrivalFromFinishOrder [FinishItem.obj (some (Sum.inl (5 / 2)))] := by
      rw [harr2]; exact List.mem_singleton.mpr rfl
    obtain ⟨m, hm⟩ := hf _ h52
    have h2 : (2 : ℚ) * m = 5 := by rw [hm]; norm_num
    have h3 : ((2 * m : ℕ) : ℚ) = ((5 : ℕ) : ℚ) := by push_cast; linarith
    have h4 : 2 * m = 5 := Nat.cast_injective h3
    omega

/-- C8 (amended): `arrivalFromFinishOrder` concatenates independently over
the list (finish order is preserved; unparseable or sub-1 entries are
dropped silently while the rest are retained); when every element is a bare
positive integer or an object with an integer-valued numeric or a
numeric-string number field, the output is a sequence of positive integers.
In particular objects `number := "4"` then `number := 7` yield `[4, 7]`,
also when an object with an unparseable number field sits between them. -/
theorem C8_finish_order_normalization :
    (∀ l₁ l₂ : List FinishItem, arrivalFromFinishOrder (l₁ ++ l₂) =
      arrivalFromFinishOrder l₁ ++ arrivalFromFinishOrder l₂) ∧
    (∀ l : List FinishItem, (∀ it ∈ l, goodFinishItem it) →
      ∀ q ∈ arrivalFromFinishOrder l, 1 ≤ q ∧ ∃ m : ℕ, (m : ℚ) = q) ∧
    arrivalFromFinishOrder
        [FinishItem.obj (some (Sum.inr "4")),
         FinishItem.obj (some (Sum.inl 7))] = [4, 7] ∧
    arrivalFromFinishOrder
        [FinishItem.obj (some (Sum.inr "4")), FinishItem.obj none,
         FinishItem.obj (some (Sum.inl 7))] = [4, 7] := by
  refine ⟨?_, ?_, by decide, by decide⟩
  · intro l₁ l₂
    induction l₁ with
    | nil => rfl
    | cons it rest ih =>
      cases it with
      | num n =>
        by_cases h : 1 ≤ n <;>
          simp [arrivalFromFinishOrder, h, ih]
      | obj field =>
        rcases field with _ | f
        · simp [arrivalFromFinishOrder, ih]
        · rcases f with q | s
          · by_cases h : 1 ≤ q <;>
              simp [arrivalFromFinishOrder, h, ih]
          · cases hp : jsParseInt s with
            | none => simp [arrivalFromFinishOrder, hp, ih]
            | some z =>
              by_cases h : 1 ≤ (z : ℚ) <;>
                simp [arrivalFromFinishOrder, hp, h, ih]
      | nullItem => simp [arrivalFromFinishOrder, ih]
  · intro l hgood q hq
    induction l with
    | nil => cases hq
    | cons it rest ih =>
      have hrest : ∀ x ∈ rest, goodFinishItem x :=
        fun x hx => hgood x (List.mem_cons_of_mem it hx)
      have hit := hgood it (List.mem_cons_self it rest)
      cases it with
      | num n =>
        obtain ⟨h1, m, hm⟩ := hit
        rw [show arrivalFromFinishOrder (FinishItem.num n :: rest) =
            n :: arrivalFromFinishOrder rest by
          simp [arrivalFromFinishOrder, h1]] at hq
        rcases List.mem_cons.mp hq with rfl | hq'
        · exact ⟨h1, m, hm⟩
        · exact ih hrest hq'
      | obj field =>
        rcases field with _ | f
        · rw [show arrivalFromFinishOrder (FinishItem.obj none :: rest) =
              arrivalFromFinishOrder rest by
            simp [arrivalFromFinishOrder]] at hq
          exact ih hrest hq
        · rcases f with qv | s
          · obtain ⟨m, hm⟩ := hit
            by_cases h1 : 1 ≤ qv
            · rw [show arrivalFromFinishOrder
                  (FinishItem.obj (some (Sum.inl qv)) :: rest) =
                  qv :: arrivalFromFinishOrder rest by
                simp [arrivalFromFinishOrder, h1]] at hq
              rcases List.mem_cons.mp hq with rfl | hq'
              · refine ⟨h1, m.toNat, ?_⟩
                have hm1 : (1 : ℚ) ≤ (m : ℚ) := by rw [hm]; exact h1
                have hm2 : (1 : ℤ) ≤ m := by exact_mod_cast hm1
                rw [← hm]
                norm_cast
                omega
              · exact ih hrest hq'
            · rw [show arrivalFromFinishOrder
                  (FinishItem.obj (some (Sum.inl qv)) :: rest) =
                  arrivalFromFinishOrder rest by
                simp [arrivalFromFinishOrder, h1]] at hq
              exact ih hrest hq
          · cases hp : jsParseInt s with
            | none =>
              rw [show arrivalFromFinishOrder
                  (FinishItem.obj (some (Sum.inr s)) :: rest) =
                  arrivalFromFinishOrder rest by
                simp [arrivalFromFinishOrder, hp]] at hq
              exact ih hrest hq
            | some z =>
              by_cases h1 : 1 ≤ (z : ℚ)
              · rw [show arrivalFromFinishOrder
                    (FinishItem.obj (some (Sum.inr s)) :: rest) =
                    (z : ℚ) :: arrivalFromFinishOrder rest by
                  simp [arrivalFromFinishOrder, hp, h1]] at hq
                rcases List.mem_cons.mp hq with rfl | hq'
                · refine ⟨h1, z.toNat, ?_⟩
                  have hz : (1 : ℤ) ≤ z := by exact_mod_cast h1
                  norm_cast
                  omega
                · exact ih hrest hq'
              · rw [show arrivalFromFinishOrder
                    (FinishItem.obj (some (Sum.inr s)) :: rest) =
                    arrivalFromFinishOrder rest by
                  simp [arrivalFromFinishOrder, hp, h1]] at hq
                exact ih hrest hq
      | nullItem =>
        rw [show arrivalFromFinishOrder (FinishItem.nullItem :: rest) =
            arrivalFromFinishOrder rest from rfl] at hq
        exact ih hrest hq

theorem C8_finish_order_normalization_witness :
    (∀ it ∈ [FinishItem.num 3, FinishItem.obj (some (Sum.inr "5"))],
      goodFinishItem it) ∧
    (∀ q ∈ arrivalFromFinishOrder
        [FinishItem.num 3, FinishItem.obj (some (Sum.inr "5"))],
      1 ≤ q ∧ ∃ m : ℕ, (m : ℚ) = q) := by
  have hgood : ∀ it ∈ [FinishItem.num 3, FinishItem.obj (some (Sum.inr "5"))],
      goodFinishItem it := by
    intro it hit
    rcases List.mem_cons.mp hit with rfl | hit'
    · exact ⟨by norm_num, 3, by norm_num⟩
    · rcases List.mem_singleton.mp hit' with rfl
      exact trivial
  exact ⟨hgood, C8_finish_order_normalization.2.1 _ hgood⟩

/-! ## Claim theorems: prize parsing -/

theorem dropWhile_cons_false {p : Char → Bool} {c : Char} {t : List Char}
    (h : p c = false) : (c :: t).dropWhile p = c :: t := by
  rw [List.dropWhile_cons, h]
  simp

theorem mk_cons_ne_empty (x : Char) (xs : List Char) :
    (⟨x :: xs⟩ : String) ≠ "" := by
  intro h
  have := congrArg String.data h
  simp at this

theorem exists_rev_head (c : Char) (t : List Char) :
    ∃ d u, (c :: t).reverse = d :: u ∧ d ∈ c :: t := by
  cases hrev : (c :: t).reverse with
  | nil =>
    have := congrArg List.length hrev
    simp at this
  | cons d u =>
    refine ⟨d, u, rfl, ?_⟩
    have hd : d ∈ (c :: t).reverse := by rw [hrev]; exact List.mem_cons_self d u
    exact List.mem_reverse.mp hd

/-- A string whose first character, and whose last character, are not
whitespace is unchanged by `trim`. -/
theorem jsTrim_mk_eq (c : Char) (t : List Char) (d : Char) (u : List Char)
    (hrev : (c :: t).reverse = d :: u)
    (hc : isJsWs c = false) (hd : isJsWs d = false) :
    jsTrim ⟨c :: t⟩ = ⟨c :: t⟩ := by
  unfold jsTrim
  rw [show (String.mk (c :: t)).data = c :: t from rfl]
  rw [dropWhile_cons_false hc, hrev, dropWhile_cons_false hd, ← hrev,
    List.reverse_reverse]

theorem prizeRest_nonws (r : List Char) (h : ∀ x ∈ r, isJsWs x = false) :
    prizeRest r = some r := by
  unfold prizeRest
  have hall : r.all (fun c => !(isJsWs c)) = true :=
    List.all_eq_true.mpr (fun x hx => by rw [h x hx]; rfl)
  cases r with
  | nil => rfl
  | cons y ys =>
    rw [dropWhile_cons_false (h y (List.mem_cons_self y ys)), if_pos hall]

theorem prizeSplitAux_descend (s : List Char) (k0 : ℕ) :
    ∀ k, k0 ≤ k →
      (∀ j, k0 < j → j ≤ k → (s.take j).all isPrizeAmountChar = false) →
      prizeSplitAux s k = prizeSplitAux s k0 := by
  intro k
  induction k with
  | zero =>
    intro h0 _
    cases Nat.le_zero.mp h0
    rfl
  | succ k ih =>
    intro hk0 hfail
    by_cases he : k0 = k + 1
    · rw [he]
    · have hk0' : k0 ≤ k := Nat.lt_succ_iff.mp (Nat.lt_of_le_of_ne hk0 he)
      have hfk1 : (s.take (k + 1)).all isPrizeAmountChar = false :=
        hfail (k + 1) (Nat.lt_succ_of_le hk0') (Nat.le_refl _)
      have hstep : prizeSplitAux s (k + 1) = prizeSplitAux s k := by
        show (if (s.take (k + 1)).all isPrizeAmountChar = true then
            match prizeRest (s.drop (k + 1)) with
            | some g2 => some (s.take (k + 1), g2)
            | none => prizeSplitAux s k
          else prizeSplitAux s k) = prizeSplitAux s k
        rw [hfk1]
        simp
      rw [hstep]
      exact ih hk0' (fun j hj1 hj2 => hfail j hj1 (Nat.le_succ_of_le hj2))

theorem prizeSplit_all_amount (a : List Char) (hane : a ≠ [])
    (haA : ∀ x ∈ a, isPrizeAmountChar x = true) :
    prizeSplit a = some (a, []) := by
  unfold prizeSplit
  cases a with
  | nil => exact absurd rfl hane
  | cons x xs =>
    show prizeSplitAux (x :: xs) (xs.length + 1) = some (x :: xs, [])
    unfold prizeSplitAux
    have htake : (x :: xs).take (xs.length + 1) = x :: xs := by
      have h := List.take_length (l := x :: xs)
      exact h
    rw [htake, List.all_eq_true.mpr haA]
    have hdrop : (x :: xs).drop (xs.length + 1) = [] := by
      have h := List.drop_length (l := x :: xs)
      exact h
    rw [hdrop]
    simp [prizeRest]

theorem prizeSplit_with_cur (a : List Char) (e : Char) (u : List Char)
    (hane : a ≠ []) (haA : ∀ x ∈ a, isPrizeAmountChar x = true)
    (he : isPrizeAmountChar e = false)
    (hews : ∀ x ∈ e :: u, isJsWs x = false) :
    prizeSplit (a ++ ' ' :: e :: u) = some (a ++ [' '], e :: u) := by
  have hlen1 : (a ++ [' ']).length = a.length + 1 := by simp
  have hsplit : a ++ ' ' :: e :: u = (a ++ [' ']) ++ e :: u := by simp
  have hfail : ∀ j, a.length + 1 < j → j ≤ (a ++ ' ' :: e :: u).length →
      ((a ++ ' ' :: e :: u).take j).all isPrizeAmountChar = false := by
    intro j hj1 _
    have hmem : e ∈ (a ++ ' ' :: e :: u).take j := by
      rw [hsplit, List.take_append_eq_append_take, hlen1]
      cases hm : j - (a.length + 1) with
      | zero => omega
      | succ m =>
        exact List.mem_append_right _ (by simp [List.take_succ_cons])
    rw [Bool.eq_false_iff]
    intro hall
    have := List.all_eq_true.mp hall e hmem
    rw [he] at this
    exact Bool.false_ne_true this
  have hk0le : a.length + 1 ≤ (a ++ ' ' :: e :: u).length := by simp
  unfold prizeSplit
  rw [prizeSplitAux_descend (a ++ ' ' :: e :: u) (a.length + 1)
    (a ++ ' ' :: e :: u).length hk0le hfail]
  cases ha : a with
  | nil => exact absurd ha hane
  | cons x xs =>
    subst ha
    show prizeSplitAux (x :: xs ++ ' ' :: e :: u) (xs.length + 1 + 1) =
      some (x :: xs ++ [' '], e :: u)
    unfold prizeSplitAux
    have htake : (x :: xs ++ ' ' :: e :: u).take (xs.length + 1 + 1) =
        x :: xs ++ [' '] := by
      rw [show x :: xs ++ ' ' :: e :: u = (x :: xs ++ [' ']) ++ e :: u by simp]
      exact List.take_left' (by simp)
    have hdrop : (x :: xs ++ ' ' :: e :: u).drop (xs.length + 1 + 1) =
        e :: u := by
      rw [show x :: xs ++ ' ' :: e :: u = (x :: xs ++ [' ']) ++ e :: u by simp]
      exact List.drop_left' (by simp)
    have hallA : ((x :: xs) ++ [' ']).all isPrizeAmountChar = true := by
      rw [List.all_append, List.all_eq_true.mpr haA]
      rfl
    rw [htake]
    rw [show ((x :: xs ++ [' ']).all isPrizeAmountChar) = true from hallA]
    rw [hdrop, prizeRest_nonws (e :: u) hews]
    rfl

theorem replaceFirstComma_no_comma (l : List Char)
    (h : ∀ x ∈ l, ¬ x = ',') : replaceFirstComma l = l := by
  induction l with
  | nil => rfl
  | cons c t ih =>
    rw [replaceFirstComma, if_neg (h c (List.mem_cons_self c t))]
    rw [ih (fun x hx => h x (List.mem_cons_of_mem c hx))]

theorem digit_ne_comma (c : Char) (h : c.isDigit = true) : ¬ c = ',' := by
  intro hc; subst hc; exact absurd h (by decide)

theorem digit_ne_dot (c : Char) (h : c.isDigit = true) : ¬ c = '.' := by
  intro hc; subst hc; exact absurd h (by decide)

theorem filter_nonws_digits (l : List Char) (h : ∀ x ∈ l, x.isDigit = true) :
    l.filter (fun c => !(isJsWs c)) = l :=
  List.filter_eq_self.mpr (fun x hx => by rw [digit_not_ws x (h x hx)]; rfl)

/-- Filtering whitespace out of a digits-and-spaces amount keeps exactly
the digits. -/
theorem filter_digit_space (a : List Char)
    (h : ∀ x ∈ a, x.isDigit = true ∨ x = ' ') :
    (a ++ [' ']).filter (fun c => !(isJsWs c)) = a.filter Char.isDigit := by
  induction a with
  | nil => rfl
  | cons c t ih =>
    rcases h c (List.mem_cons_self c t) with hd | hsp
    · rw [List.cons_append, List.filter_cons, List.filter_cons]
      rw [show (!(isJsWs c)) = true by rw [digit_not_ws c hd]; rfl, hd]
      rw [ih (fun x hx => h x (List.mem_cons_of_mem c hx))]
    · subst hsp
      rw [List.cons_append, List.filter_cons, List.filter_cons]
      rw [show (!(isJsWs ' ')) = false from rfl,
        show (' '.isDigit) = false from rfl]
      simp only [Bool.false_eq_true, if_false]
      exact ih (fun x hx => h x (List.mem_cons_of_mem _ hx))

theorem takeWhile_append_stop {p : Char → Bool} (l₁ : List Char) (y : Char)
    (l₂ : List Char) (h₁ : ∀ x ∈ l₁, p x = true) (hy : p y = false) :
    (l₁ ++ y :: l₂).takeWhile p = l₁ := by
  induction l₁ with
  | nil => rw [List.nil_append, List.takeWhile_cons, hy]; rfl
  | cons c t ih =>
    rw [List.cons_append, List.takeWhile_cons, h₁ c (List.mem_cons_self c t)]
    simp only [if_true]
    rw [ih (fun x hx => h₁ x (List.mem_cons_of_mem c hx))]

theorem jsParseFloat_digits (ds : List Char) (hne : ds ≠ [])
    (hall : ∀ c ∈ ds, c.isDigit = true) :
    jsParseFloat ⟨ds⟩ = some ((digitsToNat ds : ℚ)) := by
  cases ds with
  | nil => exact absurd rfl hne
  | cons c t =>
    have hc := hall c (List.mem_cons_self c t)
    unfold jsParseFloat
    rw [show (String.mk (c :: t)).data = c :: t from rfl]
    rw [List.dropWhile_cons, digit_not_ws c hc]
    simp only [Bool.false_eq_true, if_false]
    rw [if_neg (digit_ne_minus c hc), if_neg (digit_ne_plus c hc)]
    unfold floatPrefixVal
    rw [takeWhile_all hall]
    simp only [List.drop_length]
    rw [if_neg (by simp)]
    congr 1
    rw [show digitsToNat [] = 0 from rfl]
    rw [Rat.mkRat_eq_div]
    norm_num

theorem jsParseFloat_decimal (dI dF : List Char)
    (hIne : dI ≠ []) (hIall : ∀ c ∈ dI, c.isDigit = true)
    (hFall : ∀ c ∈ dF, c.isDigit = true) :
    jsParseFloat ⟨dI ++ '.' :: dF⟩ =
      some ((digitsToNat dI : ℚ) +
        mkRat (digitsToNat dF) (10 ^ dF.length)) := by
  cases dI with
  | nil => exact absurd rfl hIne
  | cons c t =>
    have hc := hIall c (List.mem_cons_self c t)
    unfold jsParseFloat
    rw [show (String.mk ((c :: t) ++ '.' :: dF)).data =
      c :: (t ++ '.' :: dF) from rfl]
    rw [List.dropWhile_cons, digit_not_ws c hc]
    simp only [Bool.false_eq_true, if_false]
    rw [if_neg (digit_ne_minus c hc), if_neg (digit_ne_plus c hc)]
    unfold floatPrefixVal
    have htw : (c :: (t ++ '.' :: dF)).takeWhile Char.isDigit = c :: t := by
      rw [show c :: (t ++ '.' :: dF) = (c :: t) ++ '.' :: dF from rfl]
      exact takeWhile_append_stop (c :: t) '.' dF hIall (by decide)
    rw [htw]
    have hdrop : (c :: (t ++ '.' :: dF)).drop (c :: t).length = '.' :: dF := by
      rw [show c :: (t ++ '.' :: dF) = (c :: t) ++ '.' :: dF from rfl]
      exact List.drop_left' rfl
    simp only [hdrop]
    simp only [takeWhile_all hFall]
    rw [if_neg (by simp)]

theorem jsRound_natCast (n : ℕ) : jsRound (n : ℚ) = (n : ℤ) := by
  unfold jsRound
  rw [Rat.mkRat_eq_div]
  apply Int.floor_eq_iff.mpr
  constructor
  · push_cast
    norm_num
  · push_cast
    norm_num

theorem digit_amountChar (c : Char) (h : c.isDigit = true) :
    isPrizeAmountChar c = true := by
  unfold isPrizeAmountChar
  rw [h]
  rfl

theorem replaceFirstComma_append (dI r : List Char)
    (h : ∀ c ∈ dI, ¬ c = ',') :
    replaceFirstComma (dI ++ ',' :: r) = dI ++ '.' :: r := by
  induction dI with
  | nil => simp [replaceFirstComma]
  | cons c t ih =>
    rw [List.cons_append, replaceFirstComma,
      if_neg (h c (List.mem_cons_self c t)),
      ih (fun x hx => h x (List.mem_cons_of_mem c hx))]
    rfl

/-- An integer amount (digits with space separators) followed by a currency
token parses to the digits' value and that token. -/
theorem parsePrize_int_cur (a : List Char) (e : Char) (u : List Char)
    (d : Char) (t : List Char) (ha : a = d :: t) (hd : d.isDigit = true)
    (hall : ∀ x ∈ a, x.isDigit = true ∨ x = ' ')
    (he : isPrizeAmountChar e = false)
    (hews : ∀ x ∈ e :: u, isJsWs x = false) :
    parsePrize (some ⟨a ++ ' ' :: e :: u⟩) =
      some ((digitsToNat (a.filter Char.isDigit) : ℤ), ⟨e :: u⟩) := by
  have hane : a ≠ [] := by rw [ha]; exact List.cons_ne_nil d t
  have haA : ∀ x ∈ a, isPrizeAmountChar x = true := by
    intro x hx
    rcases hall x hx with hdg | hsp
    · exact digit_amountChar x hdg
    · subst hsp; decide
  have hL : a ++ ' ' :: e :: u = d :: (t ++ ' ' :: e :: u) := by rw [ha]; rfl
  obtain ⟨dd, v, hrevC, hddmem⟩ := exists_rev_head e u
  have hrevL : (d :: (t ++ ' ' :: e :: u)).reverse =
      dd :: (v ++ (a ++ [' ']).reverse) := by
    rw [← hL, show a ++ ' ' :: e :: u = (a ++ [' ']) ++ e :: u by simp,
      List.reverse_append, hrevC]
    rfl
  have htrim : jsTrim ⟨a ++ ' ' :: e :: u⟩ = ⟨a ++ ' ' :: e :: u⟩ := by
    rw [hL]
    exact jsTrim_mk_eq d _ dd _ hrevL (digit_not_ws d hd) (hews dd hddmem)
  have hpne : (⟨a ++ ' ' :: e :: u⟩ : String) ≠ "" := by
    rw [hL]; exact mk_cons_ne_empty _ _
  have hfilter := filter_digit_space a hall
  have hfne : a.filter Char.isDigit ≠ [] := by
    rw [ha, List.filter_cons, hd]
    simp
  have hnocomma : replaceFirstComma (a.filter Char.isDigit) =
      a.filter Char.isDigit :=
    replaceFirstComma_no_comma _
      (fun x hx => digit_ne_comma x (List.mem_filter.mp hx).2)
  have hpf := jsParseFloat_digits (a.filter Char.isDigit) hfne
    (fun c hc => (List.mem_filter.mp hc).2)
  have hnn : ¬ ((digitsToNat (a.filter Char.isDigit) : ℚ) < 0) := by
    exact not_lt.mpr (by positivity)
  have hcur : jsTrim ⟨e :: u⟩ = ⟨e :: u⟩ :=
    jsTrim_mk_eq e u dd v hrevC (hews e (List.mem_cons_self e u))
      (hews dd hddmem)
  have hcne : (⟨e :: u⟩ : String) ≠ "" := mk_cons_ne_empty _ _
  simp only [parsePrize]
  rw [if_neg hpne]
  simp only [htrim, prizeSplit_with_cur a e u hane haA he hews, hfilter,
    hnocomma, hpf]
  rw [if_neg hnn, if_neg (List.cons_ne_nil e u)]
  simp only [hcur]
  rw [if_neg hcne, jsRound_natCast]

/-- A bare digit amount with no currency token parses with the default
currency `"Dh"`. -/
theorem parsePrize_int_default (a : List Char) (d : Char) (t : List Char)
    (ha : a = d :: t) (hall : ∀ x ∈ a, x.isDigit = true) :
    parsePrize (some ⟨a⟩) = some ((digitsToNat a : ℤ), "Dh") := by
  subst ha
  have hd : d.isDigit = true := hall d (List.mem_cons_self d t)
  have hane : (d :: t) ≠ [] := List.cons_ne_nil d t
  have haA : ∀ x ∈ d :: t, isPrizeAmountChar x = true :=
    fun x hx => digit_amountChar x (hall x hx)
  obtain ⟨dd, v, hrevC, hddmem⟩ := exists_rev_head d t
  have htrim : jsTrim ⟨d :: t⟩ = ⟨d :: t⟩ :=
    jsTrim_mk_eq d t dd v hrevC (digit_not_ws d hd)
      (digit_not_ws dd (hall dd hddmem))
  have hpne : (⟨d :: t⟩ : String) ≠ "" := mk_cons_ne_empty _ _
  have hfilter : (d :: t).filter (fun c => !(isJsWs c)) = d :: t :=
    filter_nonws_digits _ hall
  have hnocomma : replaceFirstComma (d :: t) = d :: t :=
    replaceFirstComma_no_comma _ (fun x hx => digit_ne_comma x (hall x hx))
  have hpf := jsParseFloat_digits (d :: t) hane hall
  have hnn : ¬ ((digitsToNat (d :: t) : ℚ) < 0) := not_lt.mpr (by positivity)
  simp only [parsePrize]
  rw [if_neg hpne]
  simp only [htrim, prizeSplit_all_amount (d :: t) hane haA, hfilter,
    hnocomma, hpf]
  rw [if_neg hnn]
  rw [show (if True then ("Dh" : String) else ⟨[]⟩) = "Dh" from if_pos trivial]
  rw [show jsTrim "Dh" = "Dh" by decide]
  rw [if_neg (by decide : ¬ ("Dh" : String) = ""), jsRound_natCast]

/-- A decimal-comma amount followed by a currency token parses to the
rounded integer + fraction value and that token. -/
theorem parsePrize_decimal_cur (dI dF : List Char) (e : Char) (u : List Char)
    (d : Char) (t : List Char) (hI : dI = d :: t) (hd : d.isDigit = true)
    (hIall : ∀ x ∈ dI, x.isDigit = true)
    (hFall : ∀ x ∈ dF, x.isDigit = true)
    (he : isPrizeAmountChar e = false)
    (hews : ∀ x ∈ e :: u, isJsWs x = false) :
    parsePrize (some ⟨(dI ++ ',' :: dF) ++ ' ' :: e :: u⟩) =
      some (jsRound ((digitsToNat dI : ℚ) +
        mkRat (digitsToNat dF) (10 ^ dF.length)), ⟨e :: u⟩) := by
  have hane : dI ++ ',' :: dF ≠ [] := by rw [hI]; exact List.cons_ne_nil _ _
  have haA : ∀ x ∈ dI ++ ',' :: dF, isPrizeAmountChar x = true := by
    intro x hx
    rcases List.mem_append.mp hx with hx1 | hx2
    · exact digit_amountChar x (hIall x hx1)
    · rcases List.mem_cons.mp hx2 with rfl | hx3
      · decide
      · exact digit_amountChar x (hFall x hx3)
  have hL : (dI ++ ',' :: dF) ++ ' ' :: e :: u =
      d :: ((t ++ ',' :: dF) ++ ' ' :: e :: u) := by rw [hI]; rfl
  obtain ⟨dd, v, hrevC, hddmem⟩ := exists_rev_head e u
  have hrevL : (d :: ((t ++ ',' :: dF) ++ ' ' :: e :: u)).reverse =
      dd :: (v ++ ((dI ++ ',' :: dF) ++ [' ']).reverse) := by
    rw [← hL, show (dI ++ ',' :: dF) ++ ' ' :: e :: u =
      ((dI ++ ',' :: dF) ++ [' ']) ++ e :: u by simp,
      List.reverse_append, hrevC]
    rfl
  have htrim : jsTrim ⟨(dI ++ ',' :: dF) ++ ' ' :: e :: u⟩ =
      ⟨(dI ++ ',' :: dF) ++ ' ' :: e :: u⟩ := by
    rw [hL]
    exact jsTrim_mk_eq d _ dd _ hrevL (digit_not_ws d hd) (hews dd hddmem)
  have hpne : (⟨(dI ++ ',' :: dF) ++ ' ' :: e :: u⟩ : String) ≠ "" := by
    rw [hL]; exact mk_cons_ne_empty _ _
  have hfilter : ((dI ++ ',' :: dF) ++ [' ']).filter (fun c => !(isJsWs c)) =
      dI ++ ',' :: dF := by
    rw [List.filter_append, List.filter_append,
      filter_nonws_digits dI hIall, List.filter_cons]
    rw [show (!(isJsWs ',')) = true from rfl]
    simp only [if_true]
    rw [filter_nonws_digits dF hFall,
      show ([' '].filter (fun c => !(isJsWs c))) = [] from rfl]
    simp
  have hnocomma : replaceFirstComma (dI ++ ',' :: dF) = dI ++ '.' :: dF :=
    replaceFirstComma_append dI dF
      (fun x hx => digit_ne_comma x (hIall x hx))
  have hpf := jsParseFloat_decimal dI dF (by rw [hI]; exact List.cons_ne_nil _ _)
    hIall hFall
  have hnn : ¬ ((digitsToNat dI : ℚ) +
      mkRat (digitsToNat dF) (10 ^ dF.length) < 0) := by
    rw [Rat.mkRat_eq_div]
    exact not_lt.mpr (by positivity)
  have hcur : jsTrim ⟨e :: u⟩ = ⟨e :: u⟩ :=
    jsTrim_mk_eq e u dd v hrevC (hews e (List.mem_cons_self e u))
      (hews dd hddmem)
  have hcne : (⟨e :: u⟩ : String) ≠ "" := mk_cons_ne_empty _ _
  simp only [parsePrize]
  rw [if_neg hpne]
  simp only [htrim,
    prizeSplit_with_cur (dI ++ ',' :: dF) e u hane haA he hews, hfilter,
    hnocomma, hpf]
  rw [if_neg hnn, if_neg (List.cons_ne_nil e u)]
  simp only [hcur]
  rw [if_neg hcne]

/-- C9: For a prize string `<amount><optional currency token>` — the amount
may use spaces as thousands separators and a comma as decimal separator —
`parsePrize` returns the parsed (rounded) amount and the currency token,
defaulting the token to `"Dh"` when absent, and returns no purse when the
amount is not a valid non-negative number.  In particular
`"1 500 000 DH"` yields 1500000 / `"DH"`, `"15000,50 EUR"` yields 15001
(≈15000.5 rounded half-up) / `"EUR"`, and `"abc"` yields no purse. -/
theorem C9_prize_parsing :
    (∀ (a : List Char) (e : Char) (u : List Char) (d : Char) (t : List Char),
      a = d :: t → d.isDigit = true →
      (∀ x ∈ a, x.isDigit = true ∨ x = ' ') →
      isPrizeAmountChar e = false →
      (∀ x ∈ e :: u, isJsWs x = false) →
      parsePrize (some ⟨a ++ ' ' :: e :: u⟩) =
        some ((digitsToNat (a.filter Char.isDigit) : ℤ), ⟨e :: u⟩)) ∧
    (∀ (a : List Char) (d : Char) (t : List Char),
      a = d :: t → (∀ x ∈ a, x.isDigit = true) →
      parsePrize (some ⟨a⟩) = some ((digitsToNat a : ℤ), "Dh")) ∧
    (∀ (dI dF : List Char) (e : Char) (u : List Char) (d : Char)
        (t : List Char),
      dI = d :: t → d.isDigit = true →
      (∀ x ∈ dI, x.isDigit = true) → (∀ x ∈ dF, x.isDigit = true) →
      isPrizeAmountChar e = false →
      (∀ x ∈ e :: u, isJsWs x = false) →
      parsePrize (some ⟨(dI ++ ',' :: dF) ++ ' ' :: e :: u⟩) =
        some (jsRound ((digitsToNat dI : ℚ) +
          mkRat (digitsToNat dF) (10 ^ dF.length)), ⟨e :: u⟩)) ∧
    parsePrize (some "1 500 000 DH") = some (1500000, "DH") ∧
    parsePrize (some "15000,50 EUR") = some (15001, "EUR") ∧
    parsePrize (some "abc") = none ∧
    parsePrize none = none := by
  refine ⟨parsePrize_int_cur, parsePrize_int_default, parsePrize_decimal_cur,
    ?_, ?_, by decide, rfl⟩
  · have h := parsePrize_int_cur ("1 500 000".data) 'D' ['H'] '1'
      (" 500 000".data) (by decide) (by decide) (by decide) (by decide)
      (by decide)
    calc parsePrize (some "1 500 000 DH")
        = parsePrize (some ⟨"1 500 000".data ++ ' ' :: 'D' :: ['H']⟩) := by
          rw [show ("1 500 000 DH" : String) =
            ⟨"1 500 000".data ++ ' ' :: 'D' :: ['H']⟩ by decide]
      _ = some ((digitsToNat ("1 500 000".data.filter Char.isDigit) : ℤ),
            ⟨'D' :: ['H']⟩) := h
      _ = some (1500000, "DH") := by decide
  · have h := parsePrize_decimal_cur ("15000".data) ("50".data) 'E'
      ("UR".data) '1' ("5000".data) (by decide) (by decide) (by decide)
      (by decide) (by decide) (by decide)
    have hval : jsRound ((digitsToNat "15000".data : ℚ) +
        mkRat (digitsToNat "50".data) (10 ^ ("50".data.length))) = 15001 := by
      rw [show digitsToNat "15000".data = 15000 by decide,
        show digitsToNat "50".data = 50 by decide,
        show ("50".data.length) = 2 by decide]
      unfold jsRound
      rw [Rat.mkRat_eq_div, Rat.mkRat_eq_div]
      push_cast
      rw [show (15000 : ℚ) + 50 / 100 + 1 / 2 = ((15001 : ℤ) : ℚ) by
        norm_num]
      exact Int.floor_intCast 15001
    calc parsePrize (some "15000,50 EUR")
        = parsePrize (some ⟨("15000".data ++ ',' :: "50".data) ++
            ' ' :: 'E' :: "UR".data⟩) := by
          rw [show ("15000,50 EUR" : String) =
            ⟨("15000".data ++ ',' :: "50".data) ++ ' ' :: 'E' :: "UR".data⟩
            by decide]
      _ = some (jsRound ((digitsToNat "15000".data : ℚ) +
            mkRat (digitsToNat "50".data) (10 ^ ("50".data.length))),
            ⟨'E' :: "UR".data⟩) := h
      _ = some (15001, "EUR") := by rw [hval]

theorem C9_prize_parsing_witness :
    (("25".data : List Char) = '2' :: ['5'] ∧ Char.isDigit '2' = true ∧
      (∀ x ∈ ("25".data : List Char), x.isDigit = true ∨ x = ' ') ∧
      isPrizeAmountChar 'D' = false ∧
      (∀ x ∈ ['D', 'h'], isJsWs x = false)) ∧
    parsePrize (some ⟨"25".data ++ ' ' :: 'D' :: ['h']⟩) =
      some ((digitsToNat ("25".data.filter Char.isDigit) : ℤ), ⟨'D' :: ['h']⟩) := by
  refine ⟨⟨by decide, by decide, by decide, by decide, by decide⟩, ?_⟩
  exact C9_prize_parsing.1 "25".data 'D' ['h'] '2' ['5'] (by decide)
    (by decide) (by decide) (by decide) (by decide)

/-- C10: A feed-fetch failure on one scheduled auto-sync tick is caught and
logged (`"[Auto-sync] Casa API error"`) and leaves the store unchanged, and
the schedule goes on: the run after `k + 1` ticks just appends the error log
to the run after `k` ticks without touching the store, and on the following
tick the scheduler still invokes `autoSyncTick` (the sync entry point) on
the preserved store. -/
theorem C10_scheduler_resilience (feedAt : ℕ → Option CasaProgrammeResponse)
    (oracle : DetailOracle) (dayAt : ℕ → String) (k : ℕ) (s : Store)
    (h : feedAt k = none) :
    (∀ st, autoSyncTick (feedAt k) oracle (dayAt k) st =
      (st, "[Auto-sync] Casa API error")) ∧
    autoSyncSchedule feedAt oracle dayAt (k + 1) s =
      ((autoSyncSchedule feedAt oracle dayAt k s).1,
       (autoSyncSchedule feedAt oracle dayAt k s).2 ++
         ["[Auto-sync] Casa API error"]) ∧
    autoSyncSchedule feedAt oracle dayAt (k + 2) s =
      ((autoSyncTick (feedAt (k + 1)) oracle (dayAt (k + 1))
          (autoSyncSchedule feedAt oracle dayAt k s).1).1,
       (autoSyncSchedule feedAt oracle dayAt k s).2 ++
         ["[Auto-sync] Casa API error",
          (autoSyncTick (feedAt (k + 1)) oracle (dayAt (k + 1))
            (autoSyncSchedule feedAt oracle dayAt k s).1).2]) := by
  have htick : ∀ st, autoSyncTick (feedAt k) oracle (dayAt k) st =
      (st, "[Auto-sync] Casa API error") := by
    intro st
    unfold autoSyncTick
    rw [h]
    rfl
  have e1 : autoSyncSchedule feedAt oracle dayAt (k + 1) s =
      ((autoSyncTick (feedAt k) oracle (dayAt k)
          (autoSyncSchedule feedAt oracle dayAt k s).1).1,
       (autoSyncSchedule feedAt oracle dayAt k s).2 ++
         [(autoSyncTick (feedAt k) oracle (dayAt k)
            (autoSyncSchedule feedAt oracle dayAt k s).1).2]) := rfl
  have e2 : autoSyncSchedule feedAt oracle dayAt (k + 2) s =
      ((autoSyncTick (feedAt (k + 1)) oracle (dayAt (k + 1))
          (autoSyncSchedule feedAt oracle dayAt (k + 1) s).1).1,
       (autoSyncSchedule feedAt oracle dayAt (k + 1) s).2 ++
         [(autoSyncTick (feedAt (k + 1)) oracle (dayAt (k + 1))
            (autoSyncSchedule feedAt oracle dayAt (k + 1) s).1).2]) := rfl
  have h1 : autoSyncSchedule feedAt oracle dayAt (k + 1) s =
      ((autoSyncSchedule feedAt oracle dayAt k s).1,
       (autoSyncSchedule feedAt oracle dayAt k s).2 ++
         ["[Auto-sync] Casa API error"]) := by
    rw [e1, htick]
  refine ⟨htick, h1, ?_⟩
  rw [e2, h1]
  simp [List.append_assoc]

def c10Feed : ℕ → Option CasaProgrammeResponse := fun _ => none

def c10Oracle : DetailOracle := fun _ => none

def c10Day : ℕ → String := fun _ => "2024-06-01"

def c10Store : Store := { races := [], results := [] }

theorem C10_scheduler_resilience_witness :
    c10Feed 0 = none ∧
    ((∀ st, autoSyncTick (c10Feed 0) c10Oracle (c10Day 0) st =
        (st, "[Auto-sync] Casa API error")) ∧
     autoSyncSchedule c10Feed c10Oracle c10Day (0 + 1) c10Store =
       ((autoSyncSchedule c10Feed c10Oracle c10Day 0 c10Store).1,
        (autoSyncSchedule c10Feed c10Oracle c10Day 0 c10Store).2 ++
          ["[Auto-sync] Casa API error"]) ∧
     autoSyncSchedule c10Feed c10Oracle c10Day (0 + 2) c10Store =
       ((autoSyncTick (c10Feed (0 + 1)) c10Oracle (c10Day (0 + 1))
           (autoSyncSchedule c10Feed c10Oracle c10Day 0 c10Store).1).1,
        (autoSyncSchedule c10Feed c10Oracle c10Day 0 c10Store).2 ++
          ["[Auto-sync] Casa API error",
           (autoSyncTick (c10Feed (0 + 1)) c10Oracle (c10Day (0 + 1))
             (autoSyncSchedule c10Feed c10Oracle c10Day 0 c10Store).1).2])) :=
  ⟨rfl, C10_scheduler_resilience c10Feed c10Oracle c10Day 0 c10Store rfl⟩
